import Mathlib

/-!
Verification of the asdf-oracle conviction-scoring core against its
natural-language specification.

The definitions below are a shallow embedding of the JavaScript source:

* `src/src/db.js` — the SQLite store (`upsertWallet`, `recordTransaction`,
  `getLastProcessedSlot`, the `k_wallet_queue` operations);
* `src/src/webhook.js` — the push-ingest path (`processEvents`,
  `updateWalletFromTransfer`, `verifySignature`, `webhookHandler`);
* `src/src/sync.js` — the pull-ingest path (`fetchNewTransactions`,
  `updateWalletBalance`);
* `src/src/calculator.js` and `src/src/utils.js` — the K calculator;
* the security module (`rateLimitV2`) and the outbound-webhook worker
  (`processDeliveries`, `incrementWebhookFailure`).

Amounts are modelled as `Int` (SQLite TEXT columns are added with numeric
affinity, which is exact integer arithmetic inside the int64 range; the
loss of precision outside that range and in the JavaScript `Number`
conversions is modelled separately by `jsFloat` below). Slots are `Nat`,
timestamps `Int`, addresses and signatures `String`.
-/

namespace AsdfOracle

/-! ## Store model (src/src/db.js) -/

/-- A row of the `wallets` table. Column types follow the schema in
`db.js`: `first_buy_ts INTEGER` nullable, amounts TEXT holding decimal
integers (modelled as `Int`), `last_tx_signature TEXT` nullable. -/
structure WalletRow where
  address : String
  first_buy_ts : Option Int
  first_buy_amount : Int
  total_received : Int
  total_sent : Int
  current_balance : Int
  peak_balance : Int
  last_tx_signature : Option String
  deriving Repr, DecidableEq

/-- A row of the `transactions` table (`signature TEXT PRIMARY KEY`). -/
structure TxRow where
  signature : String
  slot : Nat
  block_time : Int
  wallet : String
  amount_change : Int
  deriving Repr, DecidableEq

/-- The persistent state the ingest claims range over: the `wallets` and
`transactions` tables. -/
structure Store where
  wallets : List WalletRow
  transactions : List TxRow
  deriving Repr, DecidableEq

/-- Primary-key lookup on `wallets(address)`, as used by the SQL
`ON CONFLICT(address)` clause. -/
def lookupWallet (s : Store) (address : String) : Option WalletRow :=
  s.wallets.find? (fun r => r.address = address)

/-- `getWallets(minBalance)`: SELECT * FROM wallets WHERE
CAST(current_balance AS INTEGER) >= minBalance. -/
def getWallets (s : Store) (minBalance : Int) : List WalletRow :=
  s.wallets.filter (fun r => minBalance ≤ r.current_balance)

/-- The argument record of `upsertWallet` in db.js (the JS object with
fields `address, firstBuyTs, firstBuyAmount, received, sent, balance,
lastTxSig`). -/
structure UpsertParams where
  address : String
  firstBuyTs : Option Int
  firstBuyAmount : Int
  received : Int
  sent : Int
  balance : Int
  lastTxSig : Option String
  deriving Repr, DecidableEq

/-- The DO UPDATE clause of `upsertWallet` (db.js lines 234-246):
  first_buy_ts = COALESCE(wallets.first_buy_ts, excluded.first_buy_ts),
  first_buy_amount = CASE WHEN wallets.first_buy_ts IS NULL THEN
    excluded.first_buy_amount ELSE wallets.first_buy_amount END,
  total_received = wallets.total_received + excluded.total_received,
  total_sent = wallets.total_sent + excluded.total_sent,
  current_balance = excluded.current_balance,
  peak_balance = CASE WHEN CAST(excluded.current_balance AS INTEGER) >
    CAST(COALESCE(wallets.peak_balance, 0) AS INTEGER)
    THEN excluded.current_balance ELSE wallets.peak_balance END,
  last_tx_signature = excluded.last_tx_signature.
Amounts are TEXT columns added with SQLite numeric affinity, exact
integer arithmetic inside the int64 range (see C5 for the loss outside
it). Note the SQL carries no slot and no slot comparison of any kind. -/
def applyWalletUpdate (old : WalletRow) (w : UpsertParams) : WalletRow :=
  { address := old.address
    first_buy_ts := (match old.first_buy_ts with
      | some t => some t
      | none => w.firstBuyTs)
    first_buy_amount := if old.first_buy_ts = none
      then w.firstBuyAmount else old.first_buy_amount
    total_received := old.total_received + w.received
    total_sent := old.total_sent + w.sent
    current_balance := w.balance
    peak_balance := if old.peak_balance < w.balance
      then w.balance else old.peak_balance
    last_tx_signature := w.lastTxSig }

/-- `upsertWallet` (db.js lines 229-260): INSERT a fresh row with
`peak_balance` equal to the inserted balance, or ON CONFLICT(address)
apply `applyWalletUpdate` to the stored row. -/
def upsertWallet (s : Store) (w : UpsertParams) : Store :=
  match lookupWallet s w.address with
  | none =>
      { s with wallets := s.wallets ++
          [{ address := w.address
             first_buy_ts := w.firstBuyTs
             first_buy_amount := w.firstBuyAmount
             total_received := w.received
             total_sent := w.sent
             current_balance := w.balance
             peak_balance := w.balance
             last_tx_signature := w.lastTxSig }] }
  | some old =>
      { s with wallets :=
          s.wallets.map (fun r =>
            if r.address = w.address then applyWalletUpdate old w else r) }

/-- `recordTransaction` (db.js lines 393-400): INSERT OR IGNORE INTO
transactions, idempotent on `signature`. The JS function returns nothing;
callers cannot observe whether a row was inserted. -/
def recordTransaction (s : Store) (tx : TxRow) : Store :=
  if s.transactions.any (fun t => t.signature = tx.signature) then s
  else { s with transactions := s.transactions ++ [tx] }

/-- `getLastProcessedSlot` (db.js lines 402-407): SELECT MAX(slot) FROM
transactions, with `row?.last_slot || 0` mapping NULL (empty table) to 0. -/
def getLastProcessedSlot (s : Store) : Nat :=
  s.transactions.foldl (fun m t => max m t.slot) 0

/-! ## Push-ingest path (src/src/webhook.js) -/

/-- One entry of a Helius event `tokenTransfers` array. `tokenAmount`
models `parseInt(tokenAmount || '0')`, a non-negative integer. -/
structure TokenTransfer where
  mint : String
  fromUserAccount : Option String
  toUserAccount : Option String
  tokenAmount : Nat
  deriving Repr, DecidableEq

/-- An inbound Helius webhook event. `slot` models `event.slot || 0`;
`timestamp` models `event.timestamp || now`. -/
structure HeliusEvent where
  type : String
  slot : Nat
  signature : String
  timestamp : Int
  tokenTransfers : List TokenTransfer
  deriving Repr, DecidableEq

/-- `updateWalletFromTransfer` (webhook.js lines 149-180). The existing
row is looked up via `db.getWallets(0)` followed by `.find`. `getWallets`
maps `current_balance` to a BigInt, so the JS expression
`(existing.current_balance || 0) + amountChange` mixes BigInt and Number
and throws a TypeError whenever the existing balance is non-zero (a zero
BigInt is falsy, so `0n || 0` yields the Number 0 and the addition
succeeds). The thrown case is modelled as `none`; the per-event
try/catch in `processEvents` swallows the error, leaving the state as it
was at the throw. -/
def updateWalletFromTransfer (s : Store) (address : String)
    (amountChange : Int) (blockTime : Int) (signature : String) :
    Option Store :=
  match (getWallets s 0).find? (fun r => r.address = address) with
  | some existing =>
      if existing.current_balance = 0 then
        let newBalance : Int := 0 + amountChange
        some (upsertWallet s
          { address := address
            balance := max 0 newBalance
            firstBuyTs := existing.first_buy_ts
            firstBuyAmount := existing.first_buy_amount
            received := if 0 < amountChange then amountChange else 0
            sent := if amountChange < 0 then -amountChange else 0
            lastTxSig := some signature })
      else none
  | none =>
      if 0 < amountChange then
        some (upsertWallet s
          { address := address
            balance := amountChange
            firstBuyTs := some blockTime
            firstBuyAmount := amountChange
            received := amountChange
            sent := 0
            lastTxSig := some signature })
      else some s

/-- The per-transfer body of the loop in `processEvents` (webhook.js
lines 85-125): for a non-null sender, record `signature-from` and update
the sender; for a non-null receiver, record `signature-to` and update the
receiver. The Bool is false when a TypeError aborted the event (the
remaining transfers of the same event are skipped by the catch); writes
made before the throw are kept. The `enqueueWallet` calls touch only the
queue table, modelled separately. -/
def processTransfer (s : Store) (slot : Nat) (signature : String)
    (blockTime : Int) (t : TokenTransfer) : Store × Bool :=
  let amount : Int := t.tokenAmount
  let step1 : Store × Bool :=
    match t.fromUserAccount with
    | some f =>
        let s1 := recordTransaction s
          { signature := signature ++ "-from", slot := slot
            block_time := blockTime, wallet := f, amount_change := -amount }
        match updateWalletFromTransfer s1 f (-amount) blockTime signature with
        | some s2 => (s2, true)
        | none => (s1, false)
    | none => (s, true)
  match step1 with
  | (s1, false) => (s1, false)
  | (s1, true) =>
      match t.toUserAccount with
      | some tacc =>
          let s2 := recordTransaction s1
            { signature := signature ++ "-to", slot := slot
              block_time := blockTime, wallet := tacc, amount_change := amount }
          match updateWalletFromTransfer s2 tacc amount blockTime signature with
          | some s3 => (s3, true)
          | none => (s2, false)
      | none => (s1, true)

/-- Folds `processTransfer` over the relevant transfers of one event,
stopping at the first thrown TypeError (the event-level catch). -/
def processTransfers (s : Store) (slot : Nat) (signature : String)
    (blockTime : Int) : List TokenTransfer → Store
  | [] => s
  | t :: ts =>
      match processTransfer s slot signature blockTime t with
      | (s1, true) => processTransfers s1 slot signature blockTime ts
      | (s1, false) => s1

/-- One event of `processEvents` (webhook.js lines 62-134), with the
last-processed slot `lastSlot` read once for the whole batch: skip
non-transfer types; skip events with `slot <= lastProcessedSlot` when the
watermark is positive; filter transfers to the configured mint; then
process each transfer. -/
def processEvent (tokenMint : String) (lastSlot : Nat) (s : Store)
    (e : HeliusEvent) : Store :=
  if e.type ≠ "TRANSFER" ∧ e.type ≠ "TOKEN_TRANSFER" then s
  else if e.slot ≤ lastSlot ∧ 0 < lastSlot then s
  else
    let relevant := e.tokenTransfers.filter (fun t => t.mint = tokenMint)
    processTransfers s e.slot e.signature e.timestamp relevant

/-- `processEvents` (webhook.js lines 45-144): reads the watermark once,
then folds the events in array order (no sorting). The trailing
`calculator.calculate()` reads but never writes the modelled tables. -/
def processEvents (tokenMint : String) (s : Store)
    (events : List HeliusEvent) : Store :=
  events.foldl
    (fun st e => processEvent tokenMint (getLastProcessedSlot s) st e) s

/-! ## IEEE 754 binary64 rounding of integers

The sync path converts stored BigInt amounts with `Number(...)` and does
its balance arithmetic on doubles. For an integer input (below the
overflow threshold, far beyond any token supply) the resulting value is
the nearest representable double, ties to even: exact up to `2 ^ 53`,
rounded to a multiple of `2 ^ (bits - 53)` above it. -/

/-- Fuelled floor of the base-2 logarithm (the fuel 1100 covers every
finite double; structural recursion keeps it kernel-reducible). -/
def log2fuel : Nat → Nat → Nat
  | 0, _ => 0
  | fuel + 1, n => if 2 ≤ n then log2fuel fuel (n / 2) + 1 else 0

/-- Round a natural number to the nearest IEEE 754 binary64 value
(ties to even), returned as the exact integer that the double denotes. -/
def flNat (n : Nat) : Nat :=
  if n ≤ 2 ^ 53 then n
  else
    let k := log2fuel 1100 n
    let s := k - 52
    let q := n / 2 ^ s
    let r := n % 2 ^ s
    let half := 2 ^ (s - 1)
    let q1 := if half < r ∨ (r = half ∧ q % 2 = 1) then q + 1 else q
    q1 * 2 ^ s

/-- `Number(x)` on an arbitrary-precision integer, and likewise the
rounding applied after every double addition. -/
def jsFloat (z : Int) : Int :=
  if 0 ≤ z then (flNat z.toNat : Int) else -(flNat (-z).toNat : Int)

/-! ## Pull-ingest path (src/src/sync.js) -/

/-- One signature record from `getSignaturesForAddress`. -/
structure SigInfo where
  signature : String
  slot : Nat
  deriving Repr, DecidableEq

/-- A balance change produced by `helius.parseTransaction`. -/
structure BalanceChange where
  signature : String
  wallet : String
  amountChange : Int
  blockTime : Int
  deriving Repr, DecidableEq

/-- A fetched and parsed transaction handed to the pull pipeline. -/
structure PulledTx where
  signature : String
  slot : Nat
  blockTime : Int
  changes : List BalanceChange
  deriving Repr, DecidableEq

/-- Holder-state transition reported by the pull path. -/
inductive HolderChange where
  | isNew
  | isExit
  deriving Repr, DecidableEq

/-- `updateWalletBalance` (sync.js lines 236-271). For an existing wallet
the code computes `Number(existing.current_balance) + change.amountChange`
on doubles: the stored balance is rounded by the `Number` conversion and
the sum is rounded again, modelled by `jsFloat`; `first_buy_amount` is
also passed through `Number(...)`. The new balance is clamped at zero.
Returns the holder transition: exit when a positive balance reached zero,
new when an unknown wallet received a positive amount. -/
def updateWalletBalance (s : Store) (c : BalanceChange) :
    Store × Option HolderChange :=
  match (getWallets s 0).find? (fun r => r.address = c.wallet) with
  | some existing =>
      let oldBalance := jsFloat existing.current_balance
      let newBalance := jsFloat (oldBalance + c.amountChange)
      let s1 := upsertWallet s
        { address := c.wallet
          balance := max 0 newBalance
          firstBuyTs := existing.first_buy_ts
          firstBuyAmount := jsFloat existing.first_buy_amount
          received := if 0 < c.amountChange then c.amountChange else 0
          sent := if c.amountChange < 0 then -c.amountChange else 0
          lastTxSig := some c.signature }
      (s1, if 0 < oldBalance ∧ newBalance ≤ 0 then some .isExit else none)
  | none =>
      if 0 < c.amountChange then
        (upsertWallet s
          { address := c.wallet
            balance := c.amountChange
            firstBuyTs := some c.blockTime
            firstBuyAmount := c.amountChange
            received := c.amountChange
            sent := 0
            lastTxSig := some c.signature }, some .isNew)
      else (s, none)

/-- Ascending stable sort by slot, modelling
`allTransactions.sort((a, b) => a.slot - b.slot)`. -/
def sortBySlot (l : List PulledTx) : List PulledTx :=
  let rec insert (x : PulledTx) : List PulledTx → List PulledTx
    | [] => [x]
    | y :: ys => if x.slot < y.slot then x :: y :: ys else y :: insert x ys
  l.foldr insert []

/-- `fetchNewTransactions` (sync.js lines 107-230): read the watermark,
keep only signatures with `slot > lastSlot`, fetch the transactions
(`fetch` stands for the `getTransaction` RPC; `none` models a failed or
null fetch, which is filtered out), sort by slot ascending, then for each
parsed change record a `signature-wallet` row and update the wallet. The
WebSocket broadcasts and queue enqueues touch no modelled table. -/
def fetchNewTransactions (s : Store) (sigs : List SigInfo)
    (fetch : String → Option PulledTx) : Store :=
  let lastSlot := getLastProcessedSlot s
  let newSignatures := sigs.filter (fun g => lastSlot < g.slot)
  if newSignatures.isEmpty then s
  else
    let pulled := newSignatures.filterMap (fun g => fetch g.signature)
    let sorted := sortBySlot pulled
    sorted.foldl (fun st tx =>
      tx.changes.foldl (fun st2 c =>
        let st3 := recordTransaction st2
          { signature := c.signature ++ "-" ++ c.wallet
            slot := tx.slot
            block_time := tx.blockTime
            wallet := c.wallet
            amount_change := c.amountChange }
        (updateWalletBalance st3 c).1) st) s

/-- The derived next balance of the pull path in isolation:
`Number(existing.current_balance) + change.amountChange` (sync.js lines
241-242), both conversions and the double addition rounded. -/
def syncDerivedNewBalance (currentBalance amountChange : Int) : Int :=
  jsFloat (jsFloat currentBalance + amountChange)

/-- `syncHolderDelta` (sync.js lines 64-78): a missing on-chain holder is
inserted with a NULL `firstBuyTs` and `firstBuyAmount` equal to its
current balance. -/
def syncHolderDeltaInsert (s : Store) (address : String) (balance : Int) :
    Store :=
  upsertWallet s
    { address := address
      balance := balance
      firstBuyTs := none
      firstBuyAmount := balance
      received := balance
      sent := 0
      lastTxSig := none }

/-! ## K calculator (src/src/calculator.js, src/src/utils.js) -/

/-- `pct` (utils.js lines 58-61): `Math.round((value / total) * 100)`,
0 when total is 0. For non-negative arguments `Math.round x` is
`⌊x + 1 / 2⌋`, which for the exact rational `100 * value / total` is the
integer division below. (The double rounding of `value / total * 100`
cannot move the result across a half-integer boundary for counts of
realistic size, so the exact rational is used.) -/
def pct (value total : Nat) : Nat :=
  if total = 0 then 0 else (200 * value + total) / (2 * total)

/-- Per-wallet retention as computed in calculator.js lines 60-67:
`firstBuy = wallet.first_buy_amount || wallet.current_balance` (a zero
BigInt is falsy), then `Number(balance) / Number(firstBuy)` when the
converted first buy is positive, else 1. The two `Number` conversions are
modelled by `jsFloat`; the final double division is taken exact (it can
differ from the double quotient only within one ulp, which the claims
about class counts do not depend on). -/
def retentionOf (w : WalletRow) : ℚ :=
  let firstBuy : Int :=
    if w.first_buy_amount ≠ 0 then w.first_buy_amount else w.current_balance
  let firstBuyNum := jsFloat firstBuy
  let balanceNum := jsFloat w.current_balance
  if 0 < firstBuyNum then (balanceNum : ℚ) / (firstBuyNum : ℚ) else 1

/-- The fields of the object returned by `calculate` that the claims
range over. The reducers/extractors counts are named after
`classifyWalletK` in db.js; calculator.js calls the same two buckets
partial sellers and major sellers. The hold-day and OG statistics are
wall-clock derived and not part of any claim. -/
structure KMetric where
  k : Nat
  holders : Nat
  neverSold : Nat
  accumulators : Nat
  maintained : Nat
  reducers : Nat
  extractors : Nat
  deriving Repr, DecidableEq

/-- `calculate` (calculator.js lines 41-136): read the wallets at or
above the minimum balance; return null (`none`) when there are none;
otherwise count the classes from each retention ratio — accumulators
`r ≥ 1.5`, maintained `r ≥ 1.0` (note: **not** bounded above, so every
accumulator is also counted as maintained), reducers `0.5 ≤ r < 1.0`,
extractors `r < 0.5` — and set `k = pct(maintained, total)`. -/
def calculate (s : Store) (minBalance : Int) : Option KMetric :=
  let wallets := getWallets s minBalance
  if wallets.isEmpty then none
  else
    let rs := wallets.map retentionOf
    let total := wallets.length
    some
      { k := pct (rs.countP (fun r => 1 ≤ r)) total
        holders := total
        neverSold := (wallets.countP (fun w => w.total_sent = 0))
        accumulators := rs.countP (fun r => 3 / 2 ≤ r)
        maintained := rs.countP (fun r => 1 ≤ r)
        reducers := rs.countP (fun r => 1 / 2 ≤ r ∧ r < 1)
        extractors := rs.countP (fun r => r < 1 / 2) }

/-- The `k_change` outbound event payload built by `triggerKChange`. -/
structure KChangeEvent where
  previous_k : Nat
  new_k : Nat
  delta : Int
  holders : Nat
  direction : String
  deriving Repr, DecidableEq

/-- `calculateAndSave` (calculator.js lines 142-163): when `calculate`
returns null, nothing is saved, the module-level `lastK` is left alone
and no webhook fires; otherwise the snapshot is appended, and when a
previous K exists and `|delta| ≥ 1` a `k_change` event is dispatched
(`triggerKChange` re-checks the same bound). Returns the new snapshot
list, the new `lastK` and the dispatched event, if any. -/
def calculateAndSave (s : Store) (minBalance : Int)
    (snapshots : List KMetric) (lastK : Option Nat) :
    List KMetric × Option Nat × Option KChangeEvent :=
  match calculate s minBalance with
  | none => (snapshots, lastK, none)
  | some d =>
      let ev : Option KChangeEvent :=
        match lastK with
        | some k0 =>
            let delta : Int := (d.k : Int) - (k0 : Int)
            if 1 ≤ delta.natAbs then
              some { previous_k := k0, new_k := d.k, delta := delta
                     holders := d.holders
                     direction := if 0 < delta then "up" else "down" }
            else none
        | none => none
      (snapshots ++ [d], some d.k, ev)

/-! ## K_wallet queue (src/src/db.js, k_wallet_queue) -/

/-- A row of `k_wallet_queue` (`address TEXT PRIMARY KEY`). -/
structure QueueRow where
  address : String
  priority : Int
  attempts : Nat
  last_error : Option String
  created_at : Int
  locked_until : Option Int
  deriving Repr, DecidableEq

/-- The `k_wallet_queue` table. -/
structure KWalletQueue where
  rows : List QueueRow
  deriving Repr, DecidableEq

/-- `enqueueKWallet` (db.js lines 439-449): INSERT .. ON CONFLICT(address)
DO UPDATE SET priority = MAX(old, excluded), locked_until = NULL. Note
the conflict branch unconditionally nulls `locked_until`. -/
def enqueueKWallet (q : KWalletQueue) (now : Int) (address : String)
    (priority : Int) : KWalletQueue :=
  if q.rows.any (fun r => r.address = address) then
    { rows := q.rows.map (fun r =>
        if r.address = address then
          { r with priority := max r.priority priority, locked_until := none }
        else r) }
  else
    { rows := q.rows ++
        [{ address := address, priority := priority, attempts := 0
           last_error := none, created_at := now, locked_until := none }] }

/-- A queue row is selectable when `locked_until IS NULL OR
locked_until < now`. -/
def rowUnlocked (now : Int) (r : QueueRow) : Bool :=
  match r.locked_until with
  | none => true
  | some u => u < now

/-- ORDER BY priority DESC, created_at ASC LIMIT 1 over a candidate
list (first row wins remaining ties, matching SQLite scan order). -/
def chooseNext (l : List QueueRow) : Option QueueRow :=
  l.foldl (fun acc r =>
    match acc with
    | none => some r
    | some a =>
        if a.priority < r.priority ∨
            (r.priority = a.priority ∧ r.created_at < a.created_at)
        then some r else some a) none

/-- `dequeueKWallet` (db.js lines 473-496): select the best unlocked row,
then set its `locked_until := now + 300` (the 5-minute lock). The SELECT
and UPDATE run back-to-back on the synchronous driver, so the pair is
modelled as one atomic step. Returns the leased address, if any. -/
def dequeueKWallet (q : KWalletQueue) (now : Int) :
    Option String × KWalletQueue :=
  match chooseNext (q.rows.filter (rowUnlocked now)) with
  | none => (none, q)
  | some row =>
      (some row.address,
       { rows := q.rows.map (fun r =>
           if r.address = row.address then
             { r with locked_until := some (now + 300) }
           else r) })

/-- `completeKWallet` (db.js lines 506-523), restricted to the queue
table: DELETE FROM k_wallet_queue WHERE address = ?. The companion
UPDATE of the wallet K columns does not touch the queue. -/
def completeKWallet (q : KWalletQueue) (address : String) : KWalletQueue :=
  { rows := q.rows.filter (fun r => r.address ≠ address) }

/-- `failKWallet` (db.js lines 528-538): attempts + 1, record the error,
clear the lease. -/
def failKWallet (q : KWalletQueue) (address : String) (err : String) :
    KWalletQueue :=
  { rows := q.rows.map (fun r =>
      if r.address = address then
        { r with attempts := r.attempts + 1, last_error := some err
                 locked_until := none }
      else r) }

/-! ## Tiered rate limiter (security module, `rateLimitV2`) -/

/-- The per-identity counter pair stored in the `rateLimitsV2` map.
Times are in milliseconds. -/
structure RLEntry where
  count : Nat
  resetAt : Nat
  dailyCount : Nat
  dailyResetAt : Nat
  deriving Repr, DecidableEq

/-- The `reason` string of a denied response. -/
inductive RLReason where
  | minuteLimitExceeded
  | dailyLimitExceeded
  deriving Repr, DecidableEq

/-- The result object of `rateLimitV2` (the limit/tier echo fields are
omitted; `remaining` and `dailyRemaining` are Int because the JS
subtraction can go negative). -/
structure RLResult where
  allowed : Bool
  remaining : Int
  dailyRemaining : Int
  retryAfter : Option Nat
  reason : Option RLReason
  deriving Repr, DecidableEq

/-- `getEndOfDay`: the next UTC midnight strictly after `now`
(`Date.UTC(y, m, d + 1)` in milliseconds). -/
def getEndOfDay (now : Nat) : Nat :=
  (now / 86400000 + 1) * 86400000

/-- `Math.ceil((a - now) / 1000)` for `a ≥ now` (truncated at 0
otherwise, as the denial branches never see a negative difference). -/
def ceilSeconds (a now : Nat) : Nat :=
  (a - now + 999) / 1000

/-- The two window-reset statements of `rateLimitV2`: reset the minute
counter when `now > resetAt`, reset the day counter when
`now > dailyResetAt`. -/
def rlAfterResets (e : RLEntry) (now : Nat) : RLEntry :=
  let e1 := if e.resetAt < now
    then { e with count := 0, resetAt := now + 60000 } else e
  if e1.dailyResetAt < now
    then { e1 with dailyCount := 0, dailyResetAt := getEndOfDay now }
    else e1

/-- One call of `rateLimitV2` (security module lines 87-185) for a
limited tier, acting on the stored entry for the identity (`none` when
the identity is new). Fresh identities are admitted unconditionally with
both counters at 1. Otherwise: apply the window resets, increment both
counters, then deny on the daily bound first, then on the minute bound.
The internal tier returns early and never reaches this code. -/
def rateLimitV2 (minuteLimit dayLimit : Nat) (st : Option RLEntry)
    (now : Nat) : RLResult × RLEntry :=
  match st with
  | none =>
      ({ allowed := true
         remaining := (minuteLimit : Int) - 1
         dailyRemaining := (dayLimit : Int) - 1
         retryAfter := none, reason := none },
       { count := 1, resetAt := now + 60000
         dailyCount := 1, dailyResetAt := getEndOfDay now })
  | some e =>
      let e2 := rlAfterResets e now
      let e3 := { e2 with count := e2.count + 1
                          dailyCount := e2.dailyCount + 1 }
      if dayLimit < e3.dailyCount then
        ({ allowed := false, remaining := 0, dailyRemaining := 0
           retryAfter := some (ceilSeconds e3.dailyResetAt now)
           reason := some .dailyLimitExceeded }, e3)
      else if minuteLimit < e3.count then
        ({ allowed := false, remaining := 0
           dailyRemaining := (dayLimit : Int) - (e3.dailyCount : Int)
           retryAfter := some (ceilSeconds e3.resetAt now)
           reason := some .minuteLimitExceeded }, e3)
      else
        ({ allowed := true
           remaining := (minuteLimit : Int) - (e3.count : Int)
           dailyRemaining := (dayLimit : Int) - (e3.dailyCount : Int)
           retryAfter := none, reason := none }, e3)

/-- Run a request trace through `rateLimitV2`, collecting each
response's `allowed` flag. -/
def rateLimitRun (minuteLimit dayLimit : Nat) (st : Option RLEntry) :
    List Nat → List Bool
  | [] => []
  | t :: ts =>
      let (res, e) := rateLimitV2 minuteLimit dayLimit st t
      res.allowed :: rateLimitRun minuteLimit dayLimit (some e) ts

/-- How many requests of the trace were allowed inside the 60-second
half-open window starting at `a`. -/
def allowedInWindow (times : List Nat) (flags : List Bool) (a : Nat) : Nat :=
  ((times.zip flags).filter
    (fun p => p.2 ∧ a ≤ p.1 ∧ p.1 < a + 60000)).length

/-! ## Outbound webhook deliveries (webhooks module, webhook db ops) -/

/-- Delivery status values. -/
inductive DeliveryStatus where
  | pending
  | success
  | failed
  deriving Repr, DecidableEq

/-- A row of `webhook_deliveries`. -/
structure WebhookDelivery where
  id : Nat
  subscription_id : String
  attempts : Nat
  status : DeliveryStatus
  next_retry_at : Option Int
  response_code : Option Int
  response_body : Option String
  completed_at : Option Int
  deriving Repr, DecidableEq

/-- A row of `webhook_subscriptions` (the fields the worker touches). -/
structure WebhookSubscription where
  id : String
  failure_count : Nat
  is_active : Bool
  last_triggered_at : Option Int
  deriving Repr, DecidableEq

/-- The outcome of one `sendWebhook` POST. -/
structure SendResult where
  success : Bool
  status : Int
  body : String
  deriving Repr, DecidableEq

/-- `RETRY_DELAYS = [60, 300, 900]` (seconds). -/
def RETRY_DELAYS : List Nat := [60, 300, 900]

/-- `updateWebhookDelivery` (webhook db ops lines 151-166): set status
and response fields, increment `attempts`, and stamp `completed_at` on a
terminal status. -/
def updateWebhookDelivery (d : WebhookDelivery) (status : DeliveryStatus)
    (responseCode : Int) (responseBody : String)
    (nextRetryAt : Option Int) (now : Int) : WebhookDelivery :=
  { d with status := status
           attempts := d.attempts + 1
           response_code := some responseCode
           response_body := some responseBody
           next_retry_at := nextRetryAt
           completed_at := if status = .success ∨ status = .failed
             then some now else none }

/-- `incrementWebhookFailure` (webhook db ops lines 171-180):
failure_count + 1, and deactivate when the *old* count was already ≥ 4
(so the new count is ≥ 5). -/
def incrementWebhookFailure (sub : WebhookSubscription) :
    WebhookSubscription :=
  { sub with failure_count := sub.failure_count + 1
             is_active := if 4 ≤ sub.failure_count then false
               else sub.is_active }

/-- `resetWebhookFailure`: zero the failure count and stamp
`last_triggered_at`. -/
def resetWebhookFailure (sub : WebhookSubscription) (now : Int) :
    WebhookSubscription :=
  { sub with failure_count := 0, last_triggered_at := some now }

/-- The per-delivery body of `processDeliveries` (webhooks module lines
114-160): on 2xx mark success and reset the subscription failure count;
on failure, with `attempts := old + 1`, either mark failed and bump the
subscription failure count (when `attempts ≥ 3`) or reschedule at
`now + RETRY_DELAYS[attempts - 1]`. -/
def processDelivery (now : Int) (d : WebhookDelivery)
    (sub : WebhookSubscription) (result : SendResult) :
    WebhookDelivery × WebhookSubscription :=
  if result.success then
    (updateWebhookDelivery d .success result.status result.body none now,
     resetWebhookFailure sub now)
  else
    let attempts := d.attempts + 1
    if 3 ≤ attempts then
      (updateWebhookDelivery d .failed result.status result.body none now,
       incrementWebhookFailure sub)
    else
      let delay := ((RETRY_DELAYS.get? (attempts - 1)).getD 900 : Nat)
      (updateWebhookDelivery d .pending result.status result.body
        (some (now + (delay : Int))) now,
       sub)

/-- `getPendingWebhookDeliveries` eligibility (webhook db ops lines
131-146): status pending, `next_retry_at` absent or due, attempts < 3. -/
def isDeliveryEligible (now : Int) (d : WebhookDelivery) : Bool :=
  d.status = DeliveryStatus.pending && d.attempts < 3 &&
    (match d.next_retry_at with
     | none => true
     | some t => decide (t ≤ now))

/-! ## Inbound webhook authentication (src/src/webhook.js) -/

/-- `verifySignature` (webhook.js lines 21-36), parametric in the
HMAC-SHA256 hex primitive. With no configured secret the function logs a
warning and returns true without looking at the header. Otherwise it
compares the header against the expected hex digest with
`crypto.timingSafeEqual`, which **throws** when the two buffers differ in
length; the throw is modelled as `Except.error`. A missing header is
compared as the empty string. -/
def verifySignature (hmacHex : String → String → String)
    (secret : Option String) (payload : String)
    (signature : Option String) : Except Unit Bool :=
  match secret with
  | none => .ok true
  | some sec =>
      let expected := hmacHex sec payload
      let sig := signature.getD ""
      if sig.length ≠ expected.length then .error ()
      else .ok (sig = expected)

/-- `webhookHandler` (webhook.js lines 185-207): 200 with
`received:true` when verification passes, 401 on a false verdict, and
500 when the handler body throws (which a length-mismatched header makes
`timingSafeEqual` do). Event processing is fired asynchronously and does
not affect the response. Returns (status, received-flag). -/
def webhookHandler (hmacHex : String → String → String)
    (secret : Option String) (body : String)
    (sigHeader : Option String) : Nat × Bool :=
  match verifySignature hmacHex secret body sigHeader with
  | .ok true => (200, true)
  | .ok false => (401, false)
  | .error _ => (500, false)

/-! ## Theorems -/

/-- C8: for every outbound webhook delivery claimed by the worker
(status pending, attempts < 3, retry due), a failed POST increments
`attempts`; when `attempts` reaches 3 the delivery is marked failed with
no further retry and the subscription failure count is incremented,
deactivating the subscription once that count reaches 5; otherwise the
next retry is scheduled at `now + RETRY_DELAYS[attempts - 1]` with
`RETRY_DELAYS = [60, 300, 900]` seconds. -/
theorem webhook_delivery_retry_autodisable
    (now : Int) (d : WebhookDelivery) (sub : WebhookSubscription)
    (result : SendResult)
    (hElig : isDeliveryEligible now d = true)
    (hFail : result.success = false) :
    (processDelivery now d sub result).1.attempts = d.attempts + 1 ∧
    (d.attempts + 1 = 3 →
      (processDelivery now d sub result).1.status = DeliveryStatus.failed ∧
      (processDelivery now d sub result).1.next_retry_at = none ∧
      (processDelivery now d sub result).2.failure_count
        = sub.failure_count + 1 ∧
      (5 ≤ sub.failure_count + 1 →
        (processDelivery now d sub result).2.is_active = false)) ∧
    (d.attempts + 1 < 3 →
      (processDelivery now d sub result).1.status = DeliveryStatus.pending ∧
      (processDelivery now d sub result).1.next_retry_at =
        some (now + (((RETRY_DELAYS.get? d.attempts).getD 900 : Nat) : Int))) := by
  unfold processDelivery
  rw [hFail]
  simp only [Bool.false_eq_true, if_false]
  by_cases h3 : 3 ≤ d.attempts + 1
  · simp only [h3, if_true]
    refine ⟨rfl, ?_, ?_⟩
    · intro _
      refine ⟨rfl, rfl, rfl, ?_⟩
      intro h5
      unfold incrementWebhookFailure
      simp only []
      have h4 : 4 ≤ sub.failure_count := by omega
      simp [h4]
    · intro hlt
      omega
  · simp only [h3, if_false]
    refine ⟨rfl, ?_, ?_⟩
    · intro heq
      omega
    · intro _
      exact ⟨rfl, rfl⟩

/-- C8 witness: a pending delivery on its third failure is marked failed
and pushes the subscription failure count to 5, deactivating it. -/
theorem webhook_delivery_retry_autodisable_witness :
    isDeliveryEligible 100
      ⟨1, "s", 2, DeliveryStatus.pending, none, none, none, none⟩ = true ∧
    (processDelivery 100
      ⟨1, "s", 2, DeliveryStatus.pending, none, none, none, none⟩
      ⟨"s", 4, true, none⟩ ⟨false, 500, "err"⟩).1.status
        = DeliveryStatus.failed ∧
    (processDelivery 100
      ⟨1, "s", 2, DeliveryStatus.pending, none, none, none, none⟩
      ⟨"s", 4, true, none⟩ ⟨false, 500, "err"⟩).2.is_active = false := by
  have h := webhook_delivery_retry_autodisable 100
    ⟨1, "s", 2, DeliveryStatus.pending, none, none, none, none⟩
    ⟨"s", 4, true, none⟩ ⟨false, 500, "err"⟩ (by decide) rfl
  exact ⟨by decide, (h.2.1 rfl).1, (h.2.1 rfl).2.2.2 (by decide)⟩

/-- C10: when no wallet meets the minimum balance, `calculate` returns
null; `calculateAndSave` then appends no snapshot, keeps the stored
last K and dispatches no `k_change` event; and every non-null result has
at least one holder. -/
theorem calculate_empty_store (s : Store) (minB : Int)
    (snapshots : List KMetric) (lastK : Option Nat) :
    (calculate s minB = none →
      calculateAndSave s minB snapshots lastK = (snapshots, lastK, none)) ∧
    (∀ m, calculate s minB = some m → 1 ≤ m.holders) := by
  constructor
  · intro h
    unfold calculateAndSave
    rw [h]
  · intro m hm
    unfold calculate at hm
    simp only at hm
    split at hm
    · exact absurd hm (by simp)
    · rename_i hempty
      have hlen : 0 < (getWallets s minB).length := by
        have hne : getWallets s minB ≠ [] := by
          intro hnil
          exact hempty (by rw [hnil]; rfl)
        exact List.length_pos.mpr hne
      have hh : m.holders = (getWallets s minB).length := by
        cases hm
        rfl
      omega

/-- C10 witness: the empty store yields a null metric and an unchanged
snapshot list, and a one-wallet store yields a metric with one holder. -/
theorem calculate_empty_store_witness :
    calculateAndSave ⟨[], []⟩ 0 [] none = ([], none, none) ∧
    1 ≤ (KMetric.mk 100 1 1 0 1 0 0).holders := by
  constructor
  · exact (calculate_empty_store ⟨[], []⟩ 0 [] none).1 (by rfl)
  · exact (calculate_empty_store
      ⟨[⟨"W", some 0, 1000, 1000, 0, 1000, 1000, none⟩], []⟩ 0 [] none).2
      (KMetric.mk 100 1 1 0 1 0 0)
      (by norm_num [calculate, getWallets, retentionOf, jsFloat, flNat,
            pct, List.countP, List.countP.go, List.filter])

/-- C5 (code bug): the pull path derives the next balance with
`Number(existing.current_balance) + change.amountChange` on doubles
(sync.js lines 241-242). At a stored balance of 2^53 a delta of +1 is
lost to rounding: the derived balance equals 2^53 instead of the exact
2^53 + 1, contradicting the comments in db.js that the TEXT columns
exist precisely to keep values beyond 2^53 exact. -/
theorem sync_balance_precision_loss :
    syncDerivedNewBalance (2 ^ 53) 1 = 2 ^ 53 ∧
    (2 ^ 53 : Int) + 1 ≠ 2 ^ 53 := by
  constructor
  · rfl
  · decide

/-- C9 counterexample: with no configured webhook secret,
`verifySignature` returns true without reading the header, so the
handler answers 200 to a request with a garbage signature — the claimed
refusal of traffic when the secret is unset does not exist (there is no
production check anywhere in the handler). -/
theorem webhook_auth_counterexample :
    webhookHandler (fun _ _ => "") none "[]" (some "bogus") = (200, true) := by
  rfl

/-- C9 amended: with a configured secret, the handler returns 200
exactly when the header equals the expected hex HMAC and 401 when they
differ at equal byte length; a header of a different length makes
`crypto.timingSafeEqual` throw and the handler answer 500, not 401; and
with the secret unset every request is answered 200, production
included. -/
theorem webhook_auth_amended (hmacHex : String → String → String)
    (secret body : String) (sig : Option String) :
    (((sig.getD "").length = (hmacHex secret body).length) →
      (webhookHandler hmacHex (some secret) body sig = (200, true)
        ↔ sig.getD "" = hmacHex secret body) ∧
      (sig.getD "" ≠ hmacHex secret body →
        webhookHandler hmacHex (some secret) body sig = (401, false))) ∧
    (((sig.getD "").length ≠ (hmacHex secret body).length) →
      webhookHandler hmacHex (some secret) body sig = (500, false)) ∧
    webhookHandler hmacHex none body sig = (200, true) := by
  refine ⟨?_, ?_, rfl⟩
  · intro hlen
    unfold webhookHandler verifySignature
    simp only [hlen, ne_eq, not_true_eq_false, if_false]
    constructor
    · constructor
      · intro h
        by_cases heq : sig.getD "" = hmacHex secret body
        · exact heq
        · simp [heq] at h
      · intro heq
        simp [heq]
    · intro hne
      simp [hne]
  · intro hlen
    unfold webhookHandler verifySignature
    simp [hlen]

/-- C9 amended witness: a matching signature yields 200, an equal-length
mismatch yields 401, and a length mismatch yields 500. -/
theorem webhook_auth_amended_witness :
    webhookHandler (fun _ _ => "ab") (some "k") "b" (some "ab")
      = (200, true) ∧
    webhookHandler (fun _ _ => "ab") (some "k") "b" (some "xy")
      = (401, false) ∧
    webhookHandler (fun _ _ => "ab") (some "k") "b" (some "abc")
      = (500, false) := by
  refine ⟨?_, ?_, ?_⟩
  · exact ((webhook_auth_amended (fun _ _ => "ab") "k" "b" (some "ab")).1
      (by decide)).1.mpr (by decide)
  · exact ((webhook_auth_amended (fun _ _ => "ab") "k" "b" (some "xy")).1
      (by decide)).2 (by decide)
  · exact (webhook_auth_amended (fun _ _ => "ab") "k" "b" (some "abc")).2.1
      (by decide)

/-- `chooseNext` only ever returns an element of its input list. -/
theorem chooseNext_mem (l : List QueueRow) (r : QueueRow)
    (h : chooseNext l = some r) : r ∈ l := by
  have key : ∀ (l : List QueueRow) (acc : Option QueueRow) (r : QueueRow),
      l.foldl (fun acc x =>
        match acc with
        | none => some x
        | some a =>
            if a.priority < x.priority ∨
                (x.priority = a.priority ∧ x.created_at < a.created_at)
            then some x else some a) acc = some r →
      acc = some r ∨ r ∈ l := by
    intro l
    induction l with
    | nil => intro acc r h; exact Or.inl h
    | cons x xs ih =>
        intro acc r h
        simp only [List.foldl_cons] at h
        rcases ih _ r h with h1 | h2
        · cases acc with
          | none =>
              simp only [] at h1
              cases h1
              exact Or.inr (List.mem_cons_self _ _)
          | some a =>
              simp only [] at h1
              by_cases hc : a.priority < x.priority ∨
                  (x.priority = a.priority ∧ x.created_at < a.created_at)
              · rw [if_pos hc] at h1
                cases h1
                exact Or.inr (List.mem_cons_self _ _)
              · rw [if_neg hc] at h1
                exact Or.inl h1
        · exact Or.inr (List.mem_cons_of_mem _ h2)
  rcases key l none r h with h1 | h2
  · exact absurd h1 (by simp)
  · exact h2

/-- C4 counterexample: enqueue W, lease it at time 1 (lease until 301),
enqueue W again at time 2 — the re-enqueue nulls `locked_until`, so a
second dequeue at time 3 hands W out again while the first lease is
still unexpired (3 < 301): the re-enqueue does invalidate an active
lease and two workers hold the same address. -/
theorem queue_single_flight_counterexample :
    (dequeueKWallet (enqueueKWallet ⟨[]⟩ 0 "W" 0) 1).1 = some "W" ∧
    ((dequeueKWallet (enqueueKWallet ⟨[]⟩ 0 "W" 0) 1).2.rows.map
      (fun r => r.locked_until)) = [some 301] ∧
    ((enqueueKWallet
        (dequeueKWallet (enqueueKWallet ⟨[]⟩ 0 "W" 0) 1).2 2 "W" 5).rows.map
      (fun r => r.locked_until)) = [none] ∧
    (dequeueKWallet
      (enqueueKWallet
        (dequeueKWallet (enqueueKWallet ⟨[]⟩ 0 "W" 0) 1).2 2 "W" 5) 3).1
      = some "W" ∧
    (3 : Int) < 301 := by
  decide

/-- C4 amended: `Dequeue` by itself respects the lease — it only returns
an address whose row is unlocked (`locked_until` null or expired) and
stamps that row `locked_until = now + 300` — and an `Enqueue` of a
queued address coalesces the priority to the maximum of old and new; but
the enqueue also resets `locked_until` to NULL, which releases an active
lease and lets a second worker dequeue the same address (the
counterexample). Mutual exclusion therefore holds only between enqueues
of that address. -/
theorem queue_lease_amended (q : KWalletQueue) (now : Int)
    (addr a : String) (prio : Int) :
    ((dequeueKWallet q now).1 = some a →
      (∃ r ∈ q.rows, r.address = a ∧ rowUnlocked now r = true) ∧
      ∀ r ∈ (dequeueKWallet q now).2.rows, r.address = a →
        r.locked_until = some (now + 300)) ∧
    (∀ r ∈ q.rows, r.address = addr →
      ∀ r2 ∈ (enqueueKWallet q now addr prio).rows, r2.address = addr →
        ∃ r0 ∈ q.rows, r0.address = addr ∧
          r2.priority = max r0.priority prio ∧ r2.locked_until = none) := by
  constructor
  · intro h
    cases hc : chooseNext (q.rows.filter (rowUnlocked now)) with
    | none =>
        have : (dequeueKWallet q now).1 = none := by
          unfold dequeueKWallet
          rw [hc]
        rw [this] at h
        exact absurd h (by simp)
    | some row =>
        have hd : dequeueKWallet q now = (some row.address,
            ⟨q.rows.map (fun r => if r.address = row.address then
              { r with locked_until := some (now + 300) } else r)⟩) := by
          unfold dequeueKWallet
          rw [hc]
        rw [hd] at h
        simp only [Option.some.injEq] at h
        have hmemf := chooseNext_mem _ _ hc
        have hmem : row ∈ q.rows := (List.mem_filter.mp hmemf).1
        have hunl : rowUnlocked now row = true := (List.mem_filter.mp hmemf).2
        refine ⟨⟨row, hmem, h ▸ rfl, hunl⟩, ?_⟩
        intro r hr hra
        rw [hd] at hr
        simp only at hr
        rcases List.mem_map.mp hr with ⟨x, hx, hfx⟩
        by_cases hxa : x.address = row.address
        · rw [if_pos hxa] at hfx
          rw [← hfx]
        · rw [if_neg hxa] at hfx
          rw [← hfx] at hra
          exact absurd (hra.trans h.symm) hxa
  · intro r hr hra r2 hr2 hr2a
    unfold enqueueKWallet at hr2
    have hany : q.rows.any (fun x => x.address = addr) = true := by
      rw [List.any_eq_true]
      exact ⟨r, hr, by simp [hra]⟩
    rw [if_pos hany] at hr2
    simp only at hr2
    rcases List.mem_map.mp hr2 with ⟨x, hx, hfx⟩
    by_cases hxa : x.address = addr
    · rw [if_pos hxa] at hfx
      exact ⟨x, hx, hxa, by rw [← hfx], by rw [← hfx]⟩
    · rw [if_neg hxa] at hfx
      rw [← hfx] at hr2a
      exact absurd hr2a hxa

/-- C4 amended witness: on a one-row queue, dequeue at time 5 leases W
until 305, and re-enqueue with priority 7 coalesces to max 1 7 with the
lease cleared. -/
theorem queue_lease_amended_witness :
    ((∃ r ∈ [(⟨"W", 1, 0, none, 0, none⟩ : QueueRow)],
        r.address = "W" ∧ rowUnlocked 5 r = true) ∧
      ∀ r ∈ (dequeueKWallet ⟨[⟨"W", 1, 0, none, 0, none⟩]⟩ 5).2.rows,
        r.address = "W" → r.locked_until = some (5 + 300)) ∧
    (∃ r0 ∈ [(⟨"W", 1, 0, none, 0, none⟩ : QueueRow)], r0.address = "W" ∧
      (⟨"W", 7, 0, none, 0, none⟩ : QueueRow).priority = max r0.priority 7 ∧
      (⟨"W", 7, 0, none, 0, none⟩ : QueueRow).locked_until = none) := by
  constructor
  · exact (queue_lease_amended ⟨[⟨"W", 1, 0, none, 0, none⟩]⟩ 5 "x" "W" 0).1
      (by decide)
  · exact (queue_lease_amended ⟨[⟨"W", 1, 0, none, 0, none⟩]⟩ 5 "W" "y" 7).2
      ⟨"W", 1, 0, none, 0, none⟩ (by decide) rfl
      ⟨"W", 7, 0, none, 0, none⟩ (by decide) rfl

/-- Number of allowed responses in a flag list. -/
def countAllowed (flags : List Bool) : Nat :=
  flags.countP (fun b => b)

/-- C6 counterexample: with a per-minute limit of 2, the trace
0, 59999, 60001, 60002 (ms) is allowed in full — the 60001 request lands
just after the fixed window expired and resets the counter — so the
60-second window starting at 59999 contains 3 allowed requests, more
than the per-minute limit. The counter is a fixed window, not a sliding
one. -/
theorem rate_limit_window_counterexample :
    rateLimitRun 2 100 none [0, 59999, 60001, 60002]
      = [true, true, true, true] ∧
    allowedInWindow [0, 59999, 60001, 60002]
      (rateLimitRun 2 100 none [0, 59999, 60001, 60002]) 59999 = 3 ∧
    2 < 3 := by
  refine ⟨by decide, by decide, by decide⟩

/-- Unfolding equation for one step of `rateLimitRun`. -/
theorem rateLimitRun_cons (ml dl : Nat) (st : Option RLEntry)
    (t : Nat) (ts : List Nat) :
    rateLimitRun ml dl st (t :: ts)
      = (rateLimitV2 ml dl st t).1.allowed ::
        rateLimitRun ml dl (some (rateLimitV2 ml dl st t).2) ts := by
  cases hrv : rateLimitV2 ml dl st t with
  | mk res e =>
      show (match rateLimitV2 ml dl st t with
        | (res, e) => res.allowed :: rateLimitRun ml dl (some e) ts) = _
      rw [hrv]

/-- The resets do nothing when the request is inside both windows. -/
theorem rlAfterResets_id (e : RLEntry) (t : Nat)
    (hnr : ¬ (e.resetAt < t)) (hnd : ¬ (e.dailyResetAt < t)) :
    rlAfterResets e t = e := by
  unfold rlAfterResets
  rw [if_neg hnr, if_neg hnd]

/-- Fixed-window bound: starting from a live entry, as long as no
request time passes either reset boundary, at most
`minuteLimit - min minuteLimit count` further requests are allowed. -/
theorem rateLimitRun_window_bound (ml dl : Nat) (ts : List Nat) :
    ∀ e : RLEntry,
      (∀ t ∈ ts, t ≤ e.resetAt ∧ t ≤ e.dailyResetAt) →
      countAllowed (rateLimitRun ml dl (some e) ts)
        ≤ ml - min ml e.count := by
  induction ts with
  | nil => intro e _; simp [rateLimitRun, countAllowed]
  | cons t ts ih =>
      intro e h
      have ht := h t (List.mem_cons_self _ _)
      have hts : ∀ u ∈ ts, u ≤ e.resetAt ∧ u ≤ e.dailyResetAt :=
        fun u hu => h u (List.mem_cons_of_mem _ hu)
      have hnr : ¬ (e.resetAt < t) := by omega
      have hnd : ¬ (e.dailyResetAt < t) := by omega
      have h2 := ih { e with count := e.count + 1
                             dailyCount := e.dailyCount + 1 } hts
      rw [rateLimitRun_cons]
      simp only [rateLimitV2, rlAfterResets_id e t hnr hnd]
      simp only at h2 ⊢
      by_cases hday : dl < e.dailyCount + 1
      · rw [if_pos hday]
        simp [countAllowed, List.countP_cons] at h2 ⊢
        omega
      · rw [if_neg hday]
        by_cases hmin : ml < e.count + 1
        · rw [if_pos hmin]
          simp [countAllowed, List.countP_cons] at h2 ⊢
          omega
        · rw [if_neg hmin]
          simp [countAllowed, List.countP_cons] at h2 ⊢
          omega

/-- C6 amended: the limiter enforces a fixed window, not a sliding one.
For a fresh identity whose requests all fall before the first minute
boundary (`t0 + 60000`) and before the day boundary, at most
`minuteLimit` requests are allowed; a denied request carries reason
`daily_limit_exceeded` exactly when the daily counter exceeded its bound
(checked first) and `minute_limit_exceeded` otherwise, with
`retryAfter = ceil((reset - now) / 1000)` for the exceeded window, which
is positive whenever the request is strictly before that reset. -/
theorem rate_limit_amended (ml dl : Nat) (hml : 1 ≤ ml)
    (t0 : Nat) (ts : List Nat)
    (hwin : ∀ t ∈ ts, t ≤ t0 + 60000 ∧ t ≤ getEndOfDay t0) :
    countAllowed (rateLimitRun ml dl none (t0 :: ts)) ≤ ml ∧
    (∀ (st : Option RLEntry) (now : Nat),
      (rateLimitV2 ml dl st now).1.allowed = false →
      ((rateLimitV2 ml dl st now).1.reason
          = some RLReason.dailyLimitExceeded ∧
        dl < (rateLimitV2 ml dl st now).2.dailyCount ∧
        (rateLimitV2 ml dl st now).1.retryAfter
          = some (ceilSeconds (rateLimitV2 ml dl st now).2.dailyResetAt now)) ∨
      ((rateLimitV2 ml dl st now).1.reason
          = some RLReason.minuteLimitExceeded ∧
        (rateLimitV2 ml dl st now).2.dailyCount ≤ dl ∧
        ml < (rateLimitV2 ml dl st now).2.count ∧
        (rateLimitV2 ml dl st now).1.retryAfter
          = some (ceilSeconds (rateLimitV2 ml dl st now).2.resetAt now))) ∧
    (∀ a now : Nat, now < a → 0 < ceilSeconds a now) := by
  refine ⟨?_, ?_, ?_⟩
  · have h2 := rateLimitRun_window_bound ml dl ts
      { count := 1, resetAt := t0 + 60000
        dailyCount := 1, dailyResetAt := getEndOfDay t0 } hwin
    rw [rateLimitRun_cons]
    simp only [rateLimitV2]
    simp [countAllowed, List.countP_cons] at h2 ⊢
    omega
  · intro st now hdenied
    cases st with
    | none => simp [rateLimitV2] at hdenied
    | some e =>
        simp only [rateLimitV2] at hdenied ⊢
        generalize hb : rlAfterResets e now = b at hdenied ⊢
        by_cases hday : dl < b.dailyCount + 1
        · rw [if_pos hday] at hdenied ⊢
          refine Or.inl ⟨rfl, ?_, rfl⟩
          show dl < b.dailyCount + 1
          exact hday
        · rw [if_neg hday] at hdenied ⊢
          by_cases hmin : ml < b.count + 1
          · rw [if_pos hmin] at hdenied ⊢
            refine Or.inr ⟨rfl, ?_, ?_, rfl⟩
            · show b.dailyCount + 1 ≤ dl
              omega
            · show ml < b.count + 1
              exact hmin
          · rw [if_neg hmin] at hdenied
            simp at hdenied
  · intro a now h
    unfold ceilSeconds
    omega

/-- C6 amended witness: per-minute limit 2, day limit 100 — the fresh
trace 0, 1, 2 admits at most 2 requests; the state with both counters at
the limit denies the next request with the minute reason and retry data;
and a reset 3 seconds away gives a positive retryAfter. -/
theorem rate_limit_amended_witness :
    countAllowed (rateLimitRun 2 100 none [0, 1, 2]) ≤ 2 ∧
    ((rateLimitV2 2 100 (some ⟨2, 60000, 2, 86400000⟩) 10).1.reason
        = some RLReason.dailyLimitExceeded ∧
      100 < (rateLimitV2 2 100 (some ⟨2, 60000, 2, 86400000⟩) 10).2.dailyCount ∧
      (rateLimitV2 2 100 (some ⟨2, 60000, 2, 86400000⟩) 10).1.retryAfter
        = some (ceilSeconds
            (rateLimitV2 2 100 (some ⟨2, 60000, 2, 86400000⟩) 10).2.dailyResetAt
            10) ∨
      ((rateLimitV2 2 100 (some ⟨2, 60000, 2, 86400000⟩) 10).1.reason
          = some RLReason.minuteLimitExceeded ∧
        (rateLimitV2 2 100 (some ⟨2, 60000, 2, 86400000⟩) 10).2.dailyCount ≤ 100 ∧
        2 < (rateLimitV2 2 100 (some ⟨2, 60000, 2, 86400000⟩) 10).2.count ∧
        (rateLimitV2 2 100 (some ⟨2, 60000, 2, 86400000⟩) 10).1.retryAfter
          = some (ceilSeconds
              (rateLimitV2 2 100 (some ⟨2, 60000, 2, 86400000⟩) 10).2.resetAt
              10))) ∧
    0 < ceilSeconds 5 3 := by
  refine ⟨?_, ?_, ?_⟩
  · exact (rate_limit_amended 2 100 (by decide) 0 [1, 2] (by decide)).1
  · exact (rate_limit_amended 2 100 (by decide) 0 [] (by decide)).2.1
      (some ⟨2, 60000, 2, 86400000⟩) 10 (by decide)
  · exact (rate_limit_amended 2 100 (by decide) 0 [] (by decide)).2.2 5 3
      (by decide)

/-- C3 counterexample: one qualifying wallet with first buy 1000 and
balance 2000 has retention 2.0; the code counts it both as an
accumulator and as maintained (the maintained filter is `r ≥ 1.0` with
no upper bound), so the four reported class counts sum to 2 while
holders is 1 — the claimed total law fails on the reported counts. -/
theorem classification_total_counterexample :
    (calculate ⟨[⟨"W", some 0, 1000, 2000, 0, 2000, 2000, none⟩], []⟩ 0).map
      (fun m => (m.accumulators + m.maintained + m.reducers + m.extractors,
        m.holders)) = some (2, 1) ∧ (2 : Nat) ≠ 1 := by
  refine ⟨?_, by decide⟩
  norm_num [calculate, getWallets, retentionOf, jsFloat, flNat, pct,
    List.countP, List.countP.go, List.filter]

/-- Every retention falls in exactly one of the four classification
bands, and the accumulator band is contained in the maintained filter. -/
theorem retention_counts (rs : List ℚ) :
    rs.countP (fun r => 3 / 2 ≤ r) ≤ rs.countP (fun r => 1 ≤ r) ∧
    rs.countP (fun r => 1 ≤ r) + rs.countP (fun r => 1 / 2 ≤ r ∧ r < 1)
      + rs.countP (fun r => r < 1 / 2) = rs.length := by
  induction rs with
  | nil => simp
  | cons r rs ih =>
      obtain ⟨ih1, ih2⟩ := ih
      simp only [List.countP_cons, List.length_cons, decide_eq_true_eq]
      by_cases h1 : (1 : ℚ) ≤ r
      · have hn4 : ¬ (r < 1) := not_lt.mpr h1
        have hn5 : ¬ (r < 1 / 2) := by intro hc; linarith
        have hnm : ¬ ((1 : ℚ) / 2 ≤ r ∧ r < 1) := fun hc => hn4 hc.2
        rw [if_pos h1, if_neg hnm, if_neg hn5]
        by_cases h2 : (3 : ℚ) / 2 ≤ r
        · rw [if_pos h2]
          omega
        · rw [if_neg h2]
          omega
      · have h4 : r < 1 := lt_of_not_le h1
        have hn2 : ¬ ((3 : ℚ) / 2 ≤ r) := by intro hc; linarith
        rw [if_neg h1, if_neg hn2]
        by_cases h3 : (1 : ℚ) / 2 ≤ r
        · have hn5 : ¬ (r < 1 / 2) := not_lt.mpr h3
          rw [if_pos ⟨h3, h4⟩, if_neg hn5]
          omega
        · have h5 : r < 1 / 2 := lt_of_not_le h3
          rw [if_neg (fun hc => h3 hc.1), if_pos h5]
          omega

/-- C3 amended: the code's `maintained` count is the filter `r ≥ 1.0`
and therefore includes every accumulator. The four *disjoint* classes —
accumulators, maintained-strictly (= maintained − accumulators),
partial sellers, major sellers — do partition the holders, and
`K = pct(maintained, holders)`, which equals the claimed
`round(100 · (accumulators + maintained-strictly) / holders)`; only the
total law over the *reported* counts fails (counterexample). -/
theorem classification_amended (s : Store) (minB : Int) (m : KMetric)
    (h : calculate s minB = some m) :
    m.accumulators ≤ m.maintained ∧
    m.accumulators + (m.maintained - m.accumulators) + m.reducers
      + m.extractors = m.holders ∧
    0 < m.holders ∧
    m.k = pct m.maintained m.holders ∧
    m.k = (200 * (m.accumulators + (m.maintained - m.accumulators))
      + m.holders) / (2 * m.holders) := by
  unfold calculate at h
  simp only at h
  split at h
  · exact absurd h (by simp)
  · rename_i hempty
    have hlen : 0 < (getWallets s minB).length := by
      have hne : getWallets s minB ≠ [] := by
        intro hnil
        exact hempty (by rw [hnil]; rfl)
      exact List.length_pos.mpr hne
    have hrc := retention_counts ((getWallets s minB).map retentionOf)
    rw [List.length_map] at hrc
    cases h
    simp only []
    have hacc := hrc.1
    have hsum := hrc.2
    refine ⟨hacc, by omega, hlen, by trivial, ?_⟩
    have heq : (List.countP (fun r => decide (3 / 2 ≤ r))
          ((getWallets s minB).map retentionOf))
        + (List.countP (fun r => decide (1 ≤ r))
            ((getWallets s minB).map retentionOf)
          - List.countP (fun r => decide (3 / 2 ≤ r))
            ((getWallets s minB).map retentionOf))
        = List.countP (fun r => decide (1 ≤ r))
            ((getWallets s minB).map retentionOf) := by
      omega
    rw [heq]
    unfold pct
    rw [if_neg (by omega)]

/-- C3 amended witness: the retention-2.0 wallet instantiates the
amended relations: accumulators 1 ≤ maintained 1, the disjoint classes
sum to the single holder, and K = 100 under both formulas. -/
theorem classification_amended_witness :
    (1 : Nat) ≤ 1 ∧
    1 + (1 - 1) + 0 + 0 = 1 ∧
    (0 : Nat) < 1 ∧
    (100 : Nat) = pct 1 1 ∧
    (100 : Nat) = (200 * (1 + (1 - 1)) + 1) / (2 * 1) := by
  exact classification_amended
    ⟨[⟨"W", some 0, 1000, 2000, 0, 2000, 2000, none⟩], []⟩ 0
    ⟨100, 1, 1, 1, 1, 0, 0⟩
    (by norm_num [calculate, getWallets, retentionOf, jsFloat, flNat, pct,
      List.countP, List.countP.go, List.filter])

/-- C7 counterexample: a wallet created by the holder-delta sync has
received its whole balance as a positive delta and carries
`firstBuyAmount = balance` but `firstBuyTs = NULL`; because the upsert
guards the first-buy fields on `first_buy_ts IS NULL`, a later
`upsertWallet` carrying other values overwrites both fields
(999 replaces 500). -/
theorem first_buy_write_once_counterexample :
    ((lookupWallet (syncHolderDeltaInsert ⟨[], []⟩ "W" 500) "W").map
      (fun r => (r.first_buy_ts, r.first_buy_amount))
        = some (none, 500)) ∧
    ((lookupWallet (upsertWallet (syncHolderDeltaInsert ⟨[], []⟩ "W" 500)
        ⟨"W", some 123, 999, 0, 0, 500, none⟩) "W").map
      (fun r => (r.first_buy_ts, r.first_buy_amount))
        = some (some 123, 999)) ∧
    (999 : Int) ≠ 500 := by
  decide

/-- An update that only touches rows at the conflicting address leaves
`find?` at that address returning the updated row. -/
theorem find?_map_update (A : String) (u : WalletRow) (hu : u.address = A) :
    ∀ (l : List WalletRow) (r : WalletRow),
      l.find? (fun x => x.address = A) = some r →
      (l.map (fun x => if x.address = A then u else x)).find?
        (fun x => x.address = A) = some u := by
  intro l
  induction l with
  | nil => intro r h; simp at h
  | cons x xs ih =>
      intro r h
      by_cases hx : x.address = A
      · simp only [List.map_cons, if_pos hx]
        exact List.find?_cons_of_pos _ (by simp [hu])
      · simp only [List.map_cons, if_neg hx]
        rw [List.find?_cons_of_neg _ (by simp [hx])] at h
        rw [List.find?_cons_of_neg _ (by simp [hx])]
        exact ih r h

/-- C7 amended: the first-buy fields are write-once exactly for wallets
whose persisted `first_buy_ts` is non-null (the state every
ingest-created wallet reaches via its first positive delta): for such a
row no later `upsertWallet`, whatever its arguments, changes
`first_buy_ts` or `first_buy_amount`. Holder-delta-created wallets have
a null `first_buy_ts` and stay overwritable (counterexample). -/
theorem first_buy_write_once_amended (s : Store) (w : UpsertParams)
    (r : WalletRow) (t : Int)
    (hr : lookupWallet s w.address = some r)
    (ht : r.first_buy_ts = some t) :
    ∃ r2, lookupWallet (upsertWallet s w) w.address = some r2 ∧
      r2.first_buy_ts = some t ∧
      r2.first_buy_amount = r.first_buy_amount := by
  have hra : r.address = w.address := by
    have := List.find?_some hr
    simpa using this
  refine ⟨applyWalletUpdate r w, ?_, ?_, ?_⟩
  · unfold upsertWallet
    rw [hr]
    unfold lookupWallet
    exact find?_map_update w.address (applyWalletUpdate r w)
      (by simpa [applyWalletUpdate] using hra) s.wallets r hr
  · simp [applyWalletUpdate, ht]
  · simp [applyWalletUpdate, ht]

/-- C7 amended witness: a wallet with `first_buy_ts = 5`,
`first_buy_amount = 777` keeps both fields through an upsert that
carries different values. -/
theorem first_buy_write_once_amended_witness :
    lookupWallet ⟨[⟨"W", some 5, 777, 777, 0, 777, 777, none⟩], []⟩ "W"
      = some ⟨"W", some 5, 777, 777, 0, 777, 777, none⟩ ∧
    ∃ r2, lookupWallet (upsertWallet
        ⟨[⟨"W", some 5, 777, 777, 0, 777, 777, none⟩], []⟩
        ⟨"W", some 9, 123, 1, 1, 50, some "S"⟩) "W" = some r2 ∧
      r2.first_buy_ts = some 5 ∧ r2.first_buy_amount = 777 := by
  refine ⟨by decide, ?_⟩
  exact first_buy_write_once_amended
    ⟨[⟨"W", some 5, 777, 777, 0, 777, 777, none⟩], []⟩
    ⟨"W", some 9, 123, 1, 1, 50, some "S"⟩
    ⟨"W", some 5, 777, 777, 0, 777, 777, none⟩ 5 (by decide) rfl

/-- The batch-level watermark guard: an event whose slot is at or below
a positive `lastSlot` is ignored whole. -/
theorem processEvent_guard (tokenMint : String) (lastSlot : Nat)
    (s : Store) (e : HeliusEvent)
    (h1 : e.slot ≤ lastSlot) (h2 : 0 < lastSlot) :
    processEvent tokenMint lastSlot s e = s := by
  unfold processEvent
  by_cases hty : e.type ≠ "TRANSFER" ∧ e.type ≠ "TOKEN_TRANSFER"
  · rw [if_pos hty]
  · rw [if_neg hty, if_pos ⟨h1, h2⟩]

/-- C2 counterexample: `upsertWallet` carries no slot and no per-wallet
slot check exists (the `wallets` schema has no slot column). A webhook
batch is applied in array order with the watermark read once, so a
change at slot 100 arriving after one at slot 200 is applied and
overwrites `last_tx_signature` (and adds to `total_sent`) — the claimed
per-wallet slot monotonicity fails. -/
theorem slot_monotonicity_counterexample :
    ((lookupWallet (processEvents "M"
        ⟨[⟨"W", some 10, 100, 100, 100, 0, 100, some "X"⟩], []⟩
        [⟨"TRANSFER", 200, "A", 50, [⟨"M", some "W", none, 300⟩]⟩]) "W").map
      (fun r => (r.last_tx_signature, r.total_sent))
        = some (some "A", 400)) ∧
    ((lookupWallet (processEvents "M"
        ⟨[⟨"W", some 10, 100, 100, 100, 0, 100, some "X"⟩], []⟩
        [⟨"TRANSFER", 200, "A", 50, [⟨"M", some "W", none, 300⟩]⟩,
         ⟨"TRANSFER", 100, "B", 60, [⟨"M", some "W", none, 200⟩]⟩]) "W").map
      (fun r => (r.last_tx_signature, r.total_sent))
        = some (some "B", 600)) ∧
    100 < 200 := by
  refine ⟨by decide, by decide, by decide⟩

/-- C2 amended: the only slot ordering the ingest enforces is the
batch-level watermark: an event whose slot is at or below the positive
`lastProcessedSlot` read at batch start is skipped entirely, so nothing
about the wallet changes. `upsertWallet` itself applies
unconditionally — there is no per-wallet `lastSlot` — and within one
batch an older-slot change that passes the watermark is applied
(counterexample). -/
theorem slot_guard_amended (tokenMint : String) (s : Store)
    (e : HeliusEvent)
    (h1 : e.slot ≤ getLastProcessedSlot s)
    (h2 : 0 < getLastProcessedSlot s) :
    processEvents tokenMint s [e] = s := by
  unfold processEvents
  simp only [List.foldl_cons, List.foldl_nil]
  exact processEvent_guard tokenMint _ s e h1 h2

/-- C2 amended witness: with the watermark at 5, a slot-3 event leaves
the store untouched. -/
theorem slot_guard_amended_witness :
    processEvents "M" ⟨[], [⟨"S0-w", 5, 1, "w", 10⟩]⟩
      [⟨"TRANSFER", 3, "A", 50, [⟨"M", some "W", none, 300⟩]⟩]
      = ⟨[], [⟨"S0-w", 5, 1, "w", 10⟩]⟩ := by
  exact slot_guard_amended "M" ⟨[], [⟨"S0-w", 5, 1, "w", 10⟩]⟩
    ⟨"TRANSFER", 3, "A", 50, [⟨"M", some "W", none, 300⟩]⟩
    (by decide) (by decide)

/-! ### Ingest idempotence infrastructure (C1) -/

/-- The fold defining the watermark never drops below its seed. -/
theorem foldl_max_init_le (l : List TxRow) (a : Nat) :
    a ≤ l.foldl (fun m t => max m t.slot) a := by
  induction l generalizing a with
  | nil => exact le_refl a
  | cons x xs ih =>
      exact le_trans (le_max_left a x.slot) (ih (max a x.slot))

/-- Every stored transaction slot is at most the watermark. -/
theorem slot_le_watermark (s : Store) (t : TxRow)
    (ht : t ∈ s.transactions) : t.slot ≤ getLastProcessedSlot s := by
  unfold getLastProcessedSlot
  revert ht
  generalize 0 = a
  induction s.transactions generalizing a with
  | nil => intro h; cases h
  | cons x xs ih =>
      intro h
      simp only [List.foldl_cons]
      rcases List.mem_cons.mp h with h1 | h2
      · subst h1
        exact le_trans (le_max_right a t.slot) (foldl_max_init_le xs _)
      · exact ih _ h2

/-- Appending rows can only raise the watermark. -/
theorem watermark_mono (s s' : Store)
    (h : ∃ r, s'.transactions = s.transactions ++ r) :
    getLastProcessedSlot s ≤ getLastProcessedSlot s' := by
  obtain ⟨r, hr⟩ := h
  unfold getLastProcessedSlot
  rw [hr, List.foldl_append]
  exact foldl_max_init_le r _

/-- `recordTransaction` only ever appends. -/
theorem recordTransaction_append (s : Store) (tx : TxRow) :
    ∃ r, (recordTransaction s tx).transactions = s.transactions ++ r := by
  unfold recordTransaction
  split
  · exact ⟨[], by simp⟩
  · exact ⟨[tx], rfl⟩

/-- `upsertWallet` never touches the transactions table. -/
theorem upsertWallet_transactions (s : Store) (w : UpsertParams) :
    (upsertWallet s w).transactions = s.transactions := by
  unfold upsertWallet
  split <;> rfl

/-- A successful `updateWalletFromTransfer` never touches the
transactions table. -/
theorem updateWalletFromTransfer_transactions (s : Store) (a : String)
    (amt bt : Int) (sig : String) (s' : Store)
    (h : updateWalletFromTransfer s a amt bt sig = some s') :
    s'.transactions = s.transactions := by
  unfold updateWalletFromTransfer at h
  split at h
  · split at h
    · cases h
      exact upsertWallet_transactions _ _
    · cases h
  · split at h
    · cases h
      exact upsertWallet_transactions _ _
    · cases h
      rfl

/-- `processTransfer` only ever appends to the transactions table. -/
theorem processTransfer_append (s : Store) (slot : Nat)
    (sig : String) (bt : Int) (tr : TokenTransfer) :
    ∃ r, (processTransfer s slot sig bt tr).1.transactions
      = s.transactions ++ r := by
  unfold processTransfer
  rcases hf : tr.fromUserAccount with _ | f
  all_goals simp only []
  case none =>
    rcases ht : tr.toUserAccount with _ | tacc
    · exact ⟨[], by simp⟩
    · simp only []
      obtain ⟨r1, hr1⟩ := recordTransaction_append s
        { signature := sig ++ "-to", slot := slot, block_time := bt
          wallet := tacc, amount_change := (tr.tokenAmount : Int) }
      rcases hu : updateWalletFromTransfer (recordTransaction s _) tacc
          (tr.tokenAmount : Int) bt sig with _ | s3
      · exact ⟨r1, hr1⟩
      · refine ⟨r1, ?_⟩
        rw [updateWalletFromTransfer_transactions _ _ _ _ _ _ hu]
        exact hr1
  case some =>
    obtain ⟨r1, hr1⟩ := recordTransaction_append s
      { signature := sig ++ "-from", slot := slot, block_time := bt
        wallet := f, amount_change := -(tr.tokenAmount : Int) }
    rcases hu : updateWalletFromTransfer (recordTransaction s _) f
        (-(tr.tokenAmount : Int)) bt sig with _ | s2
    · exact ⟨r1, hr1⟩
    · have h2 : s2.transactions = s.transactions ++ r1 := by
        rw [updateWalletFromTransfer_transactions _ _ _ _ _ _ hu]
        exact hr1
      rcases ht : tr.toUserAccount with _ | tacc
      · exact ⟨r1, h2⟩
      · simp only []
        obtain ⟨r2, hr2⟩ := recordTransaction_append s2
          { signature := sig ++ "-to", slot := slot, block_time := bt
            wallet := tacc, amount_change := (tr.tokenAmount : Int) }
        rcases hu2 : updateWalletFromTransfer (recordTransaction s2 _) tacc
            (tr.tokenAmount : Int) bt sig with _ | s4
        · exact ⟨r1 ++ r2, by rw [hr2, h2, List.append_assoc]⟩
        · refine ⟨r1 ++ r2, ?_⟩
          rw [updateWalletFromTransfer_transactions _ _ _ _ _ _ hu2,
            hr2, h2, List.append_assoc]

/-- `processTransfers` only ever appends to the transactions table. -/
theorem processTransfers_append (slot : Nat) (sig : String) (bt : Int) :
    ∀ (l : List TokenTransfer) (s : Store),
      ∃ r, (processTransfers s slot sig bt l).transactions
        = s.transactions ++ r := by
  intro l
  induction l with
  | nil => intro s; exact ⟨[], by simp [processTransfers]⟩
  | cons tr trs ih =>
      intro s
      unfold processTransfers
      rcases hp : processTransfer s slot sig bt tr with ⟨s1, ok⟩
      obtain ⟨r1, hr1⟩ := processTransfer_append s slot sig bt tr
      rw [hp] at hr1
      simp only at hr1
      cases ok with
      | false => exact ⟨r1, hr1⟩
      | true =>
          obtain ⟨r2, hr2⟩ := ih s1
          exact ⟨r1 ++ r2, by rw [hr2, hr1, List.append_assoc]⟩

/-- `processEvent` only ever appends to the transactions table. -/
theorem processEvent_append (M : String) (L : Nat) (s : Store)
    (e : HeliusEvent) :
    ∃ r, (processEvent M L s e).transactions = s.transactions ++ r := by
  unfold processEvent
  split
  · exact ⟨[], by simp⟩
  · split
    · exact ⟨[], by simp⟩
    · exact processTransfers_append _ _ _ _ s

/-- A whole batch only ever appends to the transactions table. -/
theorem processEvents_fold_append (M : String) (L : Nat) :
    ∀ (B : List HeliusEvent) (s : Store),
      ∃ r, (B.foldl (fun st e => processEvent M L st e) s).transactions
        = s.transactions ++ r := by
  intro B
  induction B with
  | nil => intro s; exact ⟨[], by simp⟩
  | cons e es ih =>
      intro s
      simp only [List.foldl_cons]
      obtain ⟨r1, hr1⟩ := processEvent_append M L s e
      obtain ⟨r2, hr2⟩ := ih (processEvent M L s e)
      exact ⟨r1 ++ r2, by rw [hr2, hr1, List.append_assoc]⟩

/-- After `recordTransaction` a row with the recorded signature exists. -/
theorem recordTransaction_mem_sig (s : Store) (tx : TxRow) :
    ∃ t ∈ (recordTransaction s tx).transactions,
      t.signature = tx.signature ∧ (t ∈ s.transactions ∨ t = tx) := by
  unfold recordTransaction
  split
  · rename_i hany
    obtain ⟨t, ht, hsig⟩ := List.any_eq_true.mp hany
    exact ⟨t, ht, by simpa using hsig, Or.inl ht⟩
  · exact ⟨tx, by simp, rfl, Or.inr rfl⟩

/-- A transactions row as the push path writes it for an event with the
given signature and slot: marker-suffixed signature, same slot. -/
def sigMarkerRow (sig : String) (slot : Nat) (t : TxRow) : Prop :=
  (t.signature = sig ++ "-from" ∨ t.signature = sig ++ "-to") ∧
    t.slot = slot

/-- Rows after `recordTransaction` are old rows or the recorded one. -/
theorem recordTransaction_provenance (s : Store) (tx : TxRow) :
    ∀ t ∈ (recordTransaction s tx).transactions,
      t ∈ s.transactions ∨ t = tx := by
  intro t ht
  unfold recordTransaction at ht
  split at ht
  · exact Or.inl ht
  · rcases List.mem_append.mp ht with h1 | h2
    · exact Or.inl h1
    · exact Or.inr (by simpa using h2)

/-- Membership in the transactions table survives append-only steps. -/
theorem mem_of_trans_append {s s' : Store}
    (h : ∃ r, s'.transactions = s.transactions ++ r) {t : TxRow}
    (ht : t ∈ s.transactions) : t ∈ s'.transactions := by
  obtain ⟨r, hr⟩ := h
  rw [hr]
  exact List.mem_append_left _ ht

/-- Rows after `processTransfer` are old rows or marker rows of the
event being processed. -/
theorem processTransfer_provenance (s : Store) (slot : Nat)
    (sig : String) (bt : Int) (tr : TokenTransfer) :
    ∀ t ∈ (processTransfer s slot sig bt tr).1.transactions,
      t ∈ s.transactions ∨ sigMarkerRow sig slot t := by
  intro t ht
  unfold processTransfer at ht
  rcases hf : tr.fromUserAccount with _ | f <;> rw [hf] at ht <;>
    simp only at ht
  case none =>
    rcases h2 : tr.toUserAccount with _ | tacc <;> rw [h2] at ht <;>
      simp only at ht
    case none => exact Or.inl ht
    case some =>
        rcases hu : updateWalletFromTransfer (recordTransaction s _) tacc
            (tr.tokenAmount : Int) bt sig with _ | s3 <;>
          rw [hu] at ht <;> simp only at ht
        case none =>
          rcases recordTransaction_provenance s _ t ht with h | h
          · exact Or.inl h
          · exact Or.inr ⟨Or.inr (by rw [h]), by rw [h]⟩
        case some =>
          rw [updateWalletFromTransfer_transactions _ _ _ _ _ _ hu] at ht
          rcases recordTransaction_provenance s _ t ht with h | h
          · exact Or.inl h
          · exact Or.inr ⟨Or.inr (by rw [h]), by rw [h]⟩
  case some =>
    rcases hu : updateWalletFromTransfer (recordTransaction s _) f
        (-(tr.tokenAmount : Int)) bt sig with _ | s2 <;>
      rw [hu] at ht <;> simp only at ht
    case none =>
      rcases recordTransaction_provenance s _ t ht with h | h
      · exact Or.inl h
      · exact Or.inr ⟨Or.inl (by rw [h]), by rw [h]⟩
    case some =>
      have hs2 : s2.transactions = (recordTransaction s
          { signature := sig ++ "-from", slot := slot, block_time := bt
            wallet := f, amount_change := -(tr.tokenAmount : Int) }).transactions :=
        updateWalletFromTransfer_transactions _ _ _ _ _ _ hu
      rcases h2 : tr.toUserAccount with _ | tacc <;> rw [h2] at ht <;>
        simp only at ht
      case none =>
        rw [hs2] at ht
        rcases recordTransaction_provenance s _ t ht with h | h
        · exact Or.inl h
        · exact Or.inr ⟨Or.inl (by rw [h]), by rw [h]⟩
      case some =>
        have hback : ∀ u ∈ (recordTransaction s2
            { signature := sig ++ "-to", slot := slot, block_time := bt
              wallet := tacc, amount_change := (tr.tokenAmount : Int) }).transactions,
            u ∈ s.transactions ∨ sigMarkerRow sig slot u := by
          intro u hu2
          rcases recordTransaction_provenance s2 _ u hu2 with h | h
          · rw [hs2] at h
            rcases recordTransaction_provenance s _ u h with h3 | h3
            · exact Or.inl h3
            · exact Or.inr ⟨Or.inl (by rw [h3]), by rw [h3]⟩
          · exact Or.inr ⟨Or.inr (by rw [h]), by rw [h]⟩
        rcases hu2 : updateWalletFromTransfer (recordTransaction s2 _) tacc
            (tr.tokenAmount : Int) bt sig with _ | s4 <;>
          rw [hu2] at ht <;> simp only at ht
        case none => exact hback t ht
        case some =>
          rw [updateWalletFromTransfer_transactions _ _ _ _ _ _ hu2] at ht
          exact hback t ht

/-- Rows after `processTransfers` are old rows or marker rows. -/
theorem processTransfers_provenance (slot : Nat) (sig : String) (bt : Int) :
    ∀ (l : List TokenTransfer) (s : Store),
      ∀ t ∈ (processTransfers s slot sig bt l).transactions,
        t ∈ s.transactions ∨ sigMarkerRow sig slot t := by
  intro l
  induction l with
  | nil => intro s t ht; exact Or.inl ht
  | cons tr trs ih =>
      intro s t ht
      unfold processTransfers at ht
      rcases hp : processTransfer s slot sig bt tr with ⟨s1, ok⟩
      rw [hp] at ht
      have hstep : ∀ u ∈ s1.transactions,
          u ∈ s.transactions ∨ sigMarkerRow sig slot u := by
        intro u hu
        have := processTransfer_provenance s slot sig bt tr u
        rw [hp] at this
        exact this hu
      cases ok with
      | false => exact hstep t ht
      | true =>
          simp only at ht
          rcases ih s1 t ht with h | h
          · exact hstep t h
          · exact Or.inr h

/-- Rows after `processEvent` are old rows or marker rows of that
event. -/
theorem processEvent_provenance (M : String) (L : Nat) (s : Store)
    (e : HeliusEvent) :
    ∀ t ∈ (processEvent M L s e).transactions,
      t ∈ s.transactions ∨ sigMarkerRow e.signature e.slot t := by
  intro t ht
  unfold processEvent at ht
  split at ht
  · exact Or.inl ht
  · split at ht
    · exact Or.inl ht
    · exact processTransfers_provenance e.slot e.signature e.timestamp _ s t ht

/-- Rows after a batch are old rows or marker rows of a batch event. -/
theorem processEvents_fold_provenance (M : String) (L : Nat) :
    ∀ (B : List HeliusEvent) (s : Store),
      ∀ t ∈ (B.foldl (fun st e => processEvent M L st e) s).transactions,
        t ∈ s.transactions ∨
          ∃ e ∈ B, sigMarkerRow e.signature e.slot t := by
  intro B
  induction B with
  | nil => intro s t ht; exact Or.inl ht
  | cons e es ih =>
      intro s t ht
      simp only [List.foldl_cons] at ht
      rcases ih (processEvent M L s e) t ht with h | h
      · rcases processEvent_provenance M L s e t h with h1 | h1
        · exact Or.inl h1
        · exact Or.inr ⟨e, List.mem_cons_self _ _, h1⟩
      · obtain ⟨e2, he2, hm⟩ := h
        exact Or.inr ⟨e2, List.mem_cons_of_mem _ he2, hm⟩

/-- An event that writes nothing whatever the state: wrong type, or all
its relevant transfers name neither sender nor receiver. -/
def statelessEvent (M : String) (e : HeliusEvent) : Prop :=
  (e.type ≠ "TRANSFER" ∧ e.type ≠ "TOKEN_TRANSFER") ∨
  ∀ tr ∈ e.tokenTransfers.filter (fun t => t.mint = M),
    tr.fromUserAccount = none ∧ tr.toUserAccount = none

/-- Transfers with neither account are complete no-ops. -/
theorem processTransfers_null_id (slot : Nat) (sig : String) (bt : Int) :
    ∀ (l : List TokenTransfer) (s : Store),
      (∀ tr ∈ l, tr.fromUserAccount = none ∧ tr.toUserAccount = none) →
      processTransfers s slot sig bt l = s := by
  intro l
  induction l with
  | nil => intro s _; rfl
  | cons tr trs ih =>
      intro s h
      have h1 := h tr (List.mem_cons_self _ _)
      have hpt : processTransfer s slot sig bt tr = (s, true) := by
        unfold processTransfer
        rw [h1.1, h1.2]
      unfold processTransfers
      rw [hpt]
      exact ih s (fun u hu => h u (List.mem_cons_of_mem _ hu))

/-- A stateless event leaves any state unchanged at any watermark. -/
theorem statelessEvent_id (M : String) (e : HeliusEvent)
    (h : statelessEvent M e) (L : Nat) (s : Store) :
    processEvent M L s e = s := by
  unfold processEvent
  split
  · rfl
  · split
    · rfl
    · rcases h with h1 | h2
      · rename_i hty _
        exact absurd h1 hty
      · exact processTransfers_null_id e.slot e.signature e.timestamp _ s h2

/-- Processing a transfer that names at least one account leaves a
marker row for the event signature in the table. -/
theorem processTransfer_records (s : Store) (slot : Nat) (sig : String)
    (bt : Int) (tr : TokenTransfer)
    (h : tr.fromUserAccount ≠ none ∨ tr.toUserAccount ≠ none) :
    ∃ t ∈ (processTransfer s slot sig bt tr).1.transactions,
      t.signature = sig ++ "-from" ∨ t.signature = sig ++ "-to" := by
  unfold processTransfer
  rcases hf : tr.fromUserAccount with _ | f <;> simp only []
  case none =>
    rcases h2 : tr.toUserAccount with _ | tacc
    · rw [hf] at h
      rw [h2] at h
      simp at h
    · simp only []
      obtain ⟨t, ht, hsig, _⟩ := recordTransaction_mem_sig s
        { signature := sig ++ "-to", slot := slot, block_time := bt
          wallet := tacc, amount_change := (tr.tokenAmount : Int) }
      rcases hu : updateWalletFromTransfer (recordTransaction s _) tacc
          (tr.tokenAmount : Int) bt sig with _ | s3
      · exact ⟨t, ht, Or.inr hsig⟩
      · refine ⟨t, ?_, Or.inr hsig⟩
        rw [updateWalletFromTransfer_transactions _ _ _ _ _ _ hu]
        exact ht
  case some =>
    obtain ⟨t, ht, hsig, _⟩ := recordTransaction_mem_sig s
      { signature := sig ++ "-from", slot := slot, block_time := bt
        wallet := f, amount_change := -(tr.tokenAmount : Int) }
    rcases hu : updateWalletFromTransfer (recordTransaction s _) f
        (-(tr.tokenAmount : Int)) bt sig with _ | s2
    · exact ⟨t, ht, Or.inl hsig⟩
    · have hts2 : t ∈ s2.transactions := by
        rw [updateWalletFromTransfer_transactions _ _ _ _ _ _ hu]
        exact ht
      rcases h2 : tr.toUserAccount with _ | tacc
      · exact ⟨t, hts2, Or.inl hsig⟩
      · simp only []
        have hmem2 : t ∈ (recordTransaction s2
            { signature := sig ++ "-to", slot := slot, block_time := bt
              wallet := tacc, amount_change := (tr.tokenAmount : Int) }).transactions :=
          mem_of_trans_append (recordTransaction_append s2 _) hts2
        rcases hu2 : updateWalletFromTransfer (recordTransaction s2 _) tacc
            (tr.tokenAmount : Int) bt sig with _ | s4
        · exact ⟨t, hmem2, Or.inl hsig⟩
        · refine ⟨t, ?_, Or.inl hsig⟩
          rw [updateWalletFromTransfer_transactions _ _ _ _ _ _ hu2]
          exact hmem2

/-- Processing a transfer list containing a transfer that names an
account leaves a marker row in the table. -/
theorem processTransfers_records (slot : Nat) (sig : String) (bt : Int) :
    ∀ (l : List TokenTransfer) (s : Store),
      (∃ tr ∈ l, tr.fromUserAccount ≠ none ∨ tr.toUserAccount ≠ none) →
      ∃ t ∈ (processTransfers s slot sig bt l).transactions,
        t.signature = sig ++ "-from" ∨ t.signature = sig ++ "-to" := by
  intro l
  induction l with
  | nil => intro s h; simp at h
  | cons tr trs ih =>
      intro s h
      unfold processTransfers
      rcases hp : processTransfer s slot sig bt tr with ⟨s1, ok⟩
      by_cases hnn : tr.fromUserAccount ≠ none ∨ tr.toUserAccount ≠ none
      · obtain ⟨t, ht, hsig⟩ := processTransfer_records s slot sig bt tr hnn
        rw [hp] at ht
        simp only at ht
        cases ok with
        | false => exact ⟨t, ht, hsig⟩
        | true =>
            refine ⟨t, ?_, hsig⟩
            exact mem_of_trans_append (processTransfers_append slot sig bt trs s1) ht
      · push_neg at hnn
        have hpt : processTransfer s slot sig bt tr = (s, true) := by
          unfold processTransfer
          rw [hnn.1, hnn.2]
        rw [hpt] at hp
        cases hp
        obtain ⟨tr2, htr2, hnn2⟩ := h
        rcases List.mem_cons.mp htr2 with h1 | h1
        · subst h1
          rcases hnn2 with hc | hc
          · exact absurd hnn.1 hc
          · exact absurd hnn.2 hc
        · exact ih s ⟨tr2, h1, hnn2⟩

/-- A transfer-typed, unskipped event with an account-naming relevant
transfer leaves a marker row in the table. -/
theorem processEvent_records (M : String) (L : Nat) (s : Store)
    (e : HeliusEvent)
    (hty : ¬ (e.type ≠ "TRANSFER" ∧ e.type ≠ "TOKEN_TRANSFER"))
    (hg : ¬ (e.slot ≤ L ∧ 0 < L))
    (hex : ∃ tr ∈ e.tokenTransfers.filter (fun t => t.mint = M),
      tr.fromUserAccount ≠ none ∨ tr.toUserAccount ≠ none) :
    ∃ t ∈ (processEvent M L s e).transactions,
      t.signature = e.signature ++ "-from" ∨
        t.signature = e.signature ++ "-to" := by
  unfold processEvent
  rw [if_neg hty, if_neg hg]
  exact processTransfers_records e.slot e.signature e.timestamp _ s hex

/-- After a batch containing such an event, its marker row is present. -/
theorem fold_records (M : String) (L : Nat) (e : HeliusEvent)
    (hty : ¬ (e.type ≠ "TRANSFER" ∧ e.type ≠ "TOKEN_TRANSFER"))
    (hg : ¬ (e.slot ≤ L ∧ 0 < L))
    (hex : ∃ tr ∈ e.tokenTransfers.filter (fun t => t.mint = M),
      tr.fromUserAccount ≠ none ∨ tr.toUserAccount ≠ none) :
    ∀ (B : List HeliusEvent) (s : Store), e ∈ B →
      ∃ t ∈ (B.foldl (fun st e => processEvent M L st e) s).transactions,
        t.signature = e.signature ++ "-from" ∨
          t.signature = e.signature ++ "-to" := by
  intro B
  induction B with
  | nil => intro s he; cases he
  | cons e1 es ih =>
      intro s he
      simp only [List.foldl_cons]
      rcases List.mem_cons.mp he with h1 | h1
      · subst h1
        obtain ⟨t, ht, hm⟩ := processEvent_records M L s e hty hg hex
        exact ⟨t,
          mem_of_trans_append (processEvents_fold_append M L es _) ht, hm⟩
      · exact ih _ h1

/-- The stored slots are consistent with the batch: rows whose
signatures collide with the marker signatures of a batch event never
carry an older slot than that event (true of any state built by the
ingest, since a chain signature determines its slot). -/
def storeConsistent (B : List HeliusEvent) (s : Store) : Prop :=
  ∀ e ∈ B, ∀ t ∈ s.transactions,
    (t.signature = e.signature ++ "-from" ∨
      t.signature = e.signature ++ "-to") →
    e.slot ≤ t.slot

/-- No two batch events build the same marker signature from distinct
slots (true of chain data: a signature determines its slot). -/
def batchSigConsistent (B : List HeliusEvent) : Prop :=
  ∀ e1 ∈ B, ∀ e2 ∈ B,
    (e1.signature ++ "-from" = e2.signature ++ "-from" ∨
     e1.signature ++ "-from" = e2.signature ++ "-to" ∨
     e1.signature ++ "-to" = e2.signature ++ "-from" ∨
     e1.signature ++ "-to" = e2.signature ++ "-to") →
    e1.slot = e2.slot

/-- Applying a batch preserves slot-signature consistency. -/
theorem storeConsistent_preserved (M : String) (L : Nat)
    (B : List HeliusEvent) (s : Store)
    (hstore : storeConsistent B s) (hbatch : batchSigConsistent B) :
    storeConsistent B
      (B.foldl (fun st e => processEvent M L st e) s) := by
  intro e he t ht hm
  rcases processEvents_fold_provenance M L B s t ht with h | h
  · exact hstore e he t h hm
  · obtain ⟨e2, he2, hm2, hslot⟩ := h
    have heq : e.slot = e2.slot := by
      apply hbatch e he e2 he2
      rcases hm with hA | hA <;> rcases hm2 with hB | hB
      · exact Or.inl (hA.symm.trans hB)
      · exact Or.inr (Or.inl (hA.symm.trans hB))
      · exact Or.inr (Or.inr (Or.inl (hA.symm.trans hB)))
      · exact Or.inr (Or.inr (Or.inr (hA.symm.trans hB)))
    rw [heq, hslot]

/-- A fold over a pointwise-fixed state stays put. -/
theorem foldl_fixed {α β : Type} (f : α → β → α) (c : α)
    (B : List β) (h : ∀ e ∈ B, f c e = c) : B.foldl f c = c := by
  induction B with
  | nil => rfl
  | cons e es ih =>
      simp only [List.foldl_cons, h e (List.mem_cons_self _ _)]
      exact ih (fun u hu => h u (List.mem_cons_of_mem _ hu))

/-- C1 counterexample: with the watermark at 0, an event carrying slot 0
(`event.slot || 0`) passes the `slot <= lastProcessedSlot &&
lastProcessedSlot > 0` guard on every application. Re-applying the same
one-event batch to a store whose sender wallet sits at balance 0 leaves
the transactions table at one row (INSERT OR IGNORE) but doubles the
wallet's `totalSent` from 1000 to 2000, because the wallet update is not
conditioned on RecordTransaction having found the row: the claimed
second-application no-op fails. -/
theorem ingest_idempotence_counterexample :
    ((lookupWallet (processEvents "M"
        ⟨[⟨"W", some 10, 100, 100, 0, 0, 100, some "X"⟩], []⟩
        [⟨"TRANSFER", 0, "S1", 5, [⟨"M", some "W", none, 1000⟩]⟩]) "W").map
      (fun r => r.total_sent) = some 1000) ∧
    ((lookupWallet (processEvents "M"
        (processEvents "M"
          ⟨[⟨"W", some 10, 100, 100, 0, 0, 100, some "X"⟩], []⟩
          [⟨"TRANSFER", 0, "S1", 5, [⟨"M", some "W", none, 1000⟩]⟩])
        [⟨"TRANSFER", 0, "S1", 5, [⟨"M", some "W", none, 1000⟩]⟩]) "W").map
      (fun r => r.total_sent) = some 2000) ∧
    (processEvents "M"
        ⟨[⟨"W", some 10, 100, 100, 0, 0, 100, some "X"⟩], []⟩
        [⟨"TRANSFER", 0, "S1", 5, [⟨"M", some "W", none, 1000⟩]⟩]).transactions.length = 1 ∧
    (processEvents "M"
        (processEvents "M"
          ⟨[⟨"W", some 10, 100, 100, 0, 0, 100, some "X"⟩], []⟩
          [⟨"TRANSFER", 0, "S1", 5, [⟨"M", some "W", none, 1000⟩]⟩])
        [⟨"TRANSFER", 0, "S1", 5, [⟨"M", some "W", none, 1000⟩]⟩]).transactions.length = 1 ∧
    (2000 : Int) ≠ 1000 := by
  refine ⟨by decide, by decide, by decide, by decide, by decide⟩

/-- C1 amended: re-application is a no-op *via the slot watermark*, not
via RecordTransaction (whose result is ignored; the wallet update is
unconditional). For a batch whose events all carry positive slots, and
whose marker signatures are slot-consistent with the store and among
themselves (always true of chain data), pushing the batch a second time
leaves the state exactly as after the first push — every event is either
skipped by the watermark guard or writes nothing — and a subsequent pull
whose signatures are all at or below the watermark fetches nothing.
Events with slot 0 escape the guard and are re-applied
(counterexample). -/
theorem ingest_idempotence_amended (M : String) (s : Store)
    (B : List HeliusEvent)
    (hpos : ∀ e ∈ B, 0 < e.slot)
    (hstore : storeConsistent B s)
    (hbatch : batchSigConsistent B) :
    processEvents M (processEvents M s B) B = processEvents M s B ∧
    (∀ (sigs : List SigInfo) (fetch : String → Option PulledTx),
      (∀ g ∈ sigs, g.slot ≤ getLastProcessedSlot (processEvents M s B)) →
      fetchNewTransactions (processEvents M s B) sigs fetch
        = processEvents M s B) := by
  constructor
  · unfold processEvents
    set L0 := getLastProcessedSlot s with hL0
    set σ1 := B.foldl (fun st e => processEvent M L0 st e) s with hσ1
    apply foldl_fixed
    intro e he
    by_cases hty : (e.type ≠ "TRANSFER" ∧ e.type ≠ "TOKEN_TRANSFER")
    · exact statelessEvent_id M e (Or.inl hty) _ _
    · by_cases hnull : ∀ tr ∈ e.tokenTransfers.filter (fun t => t.mint = M),
          tr.fromUserAccount = none ∧ tr.toUserAccount = none
      · exact statelessEvent_id M e (Or.inr hnull) _ _
      · push_neg at hnull
        obtain ⟨tr, htr, hnn⟩ := hnull
        have hnn2 : tr.fromUserAccount ≠ none ∨ tr.toUserAccount ≠ none := by
          by_cases h1 : tr.fromUserAccount = none
          · by_cases h2 : tr.toUserAccount = none
            · exact absurd h2 (hnn h1)
            · exact Or.inr h2
          · exact Or.inl h1
        by_cases hg : e.slot ≤ L0 ∧ 0 < L0
        · have hw : L0 ≤ getLastProcessedSlot σ1 := by
            rw [hσ1]
            exact watermark_mono s _ (processEvents_fold_append M L0 B s)
          exact processEvent_guard M _ σ1 e (le_trans hg.1 hw)
            (lt_of_lt_of_le hg.2 hw)
        · obtain ⟨t, ht, hm⟩ :=
            fold_records M L0 e hty hg ⟨tr, htr, hnn2⟩ B s he
          rw [← hσ1] at ht
          have hcons : e.slot ≤ t.slot := by
            have hp := storeConsistent_preserved M L0 B s hstore hbatch
            rw [← hσ1] at hp
            exact hp e he t ht hm
          have hslot : t.slot ≤ getLastProcessedSlot σ1 :=
            slot_le_watermark σ1 t ht
          exact processEvent_guard M _ σ1 e (le_trans hcons hslot)
            (lt_of_lt_of_le (hpos e he) (le_trans hcons hslot))
  · intro sigs fetch hle
    unfold fetchNewTransactions
    have hfil : sigs.filter
        (fun g => getLastProcessedSlot (processEvents M s B) < g.slot)
        = [] := by
      apply List.filter_eq_nil_iff.mpr
      intro g hg
      simp only [decide_eq_true_eq]
      have := hle g hg
      omega
    simp only [hfil]
    simp

/-- C1 amended witness: a one-event batch at slot 1 pushed twice onto an
empty store produces the same state as pushed once, and a pull listing
the same signature at slot 1 afterwards fetches nothing. -/
theorem ingest_idempotence_amended_witness :
    (processEvents "M"
        (processEvents "M" ⟨[], []⟩
          [⟨"TRANSFER", 1, "S", 5, [⟨"M", none, some "W", 7⟩]⟩])
        [⟨"TRANSFER", 1, "S", 5, [⟨"M", none, some "W", 7⟩]⟩]
      = processEvents "M" ⟨[], []⟩
          [⟨"TRANSFER", 1, "S", 5, [⟨"M", none, some "W", 7⟩]⟩]) ∧
    fetchNewTransactions
        (processEvents "M" ⟨[], []⟩
          [⟨"TRANSFER", 1, "S", 5, [⟨"M", none, some "W", 7⟩]⟩])
        [⟨"S", 1⟩] (fun _ => none)
      = processEvents "M" ⟨[], []⟩
          [⟨"TRANSFER", 1, "S", 5, [⟨"M", none, some "W", 7⟩]⟩] := by
  have h := ingest_idempotence_amended "M" ⟨[], []⟩
    [⟨"TRANSFER", 1, "S", 5, [⟨"M", none, some "W", 7⟩]⟩]
    (by decide)
    (by intro e _ t ht _
        exact absurd ht (List.not_mem_nil t))
    (by intro e1 h1 e2 h2 _
        rw [List.mem_singleton] at h1 h2
        rw [h1, h2])
  exact ⟨h.1, h.2 [⟨"S", 1⟩] (fun _ => none) (by decide)⟩

end AsdfOracle
